import Mathlib

/-!
# A verification development for the Citrus command/event dispatch framework

This file gives a shallow embedding, in Lean 4, of the argument-parsing and
command-dispatch pipeline of the `discord-citrus` framework
(`src/struct/CitrusHandler.ts` — the `CommandHandler` class and the `Command`
class — together with `src/struct/inhibitors/InhibitorHandler.ts`, the
`TypeResolver` built-in casters and the `ContextMenuCommandHandler`), and
proves theorems about the embedded definitions.

Modelling conventions:

* JavaScript `Map`/`Collection`/plain-object maps become association lists
  (`List (String × β)`), preserving insertion order (the iteration order of a
  JS `Map`).
* JS numbers holding timestamps, cooldown durations, counters and priorities
  become `Int` (all relevant arithmetic is integral and far below 2^53, where
  doubles are exact).
* Asynchronous functions become pure functions threading an explicit state
  (`HState`) and an event trace; `emit` appends to the trace.  Exceptions
  become an explicit `thrown` result constructor.
* Interleaving of the single-threaded, cooperative event loop is modelled,
  where a claim needs it, by a small-step machine whose atomic steps are the
  code segments between `await` points.
-/

namespace Citrus

/-! ## JavaScript string primitives

The JS string methods the handler uses, implemented by structural recursion
over the character list (so that every theorem below can be evaluated by the
kernel).  JS strings are UTF-16 code-unit sequences; all the strings in this
development are ASCII, where `List Char` indices and `.length` agree with
code-unit indices. -/

/-- `String.prototype.toLowerCase` (ASCII range). -/
def jsToLower (s : String) : String := ⟨s.data.map Char.toLower⟩

/-- `String.prototype.toUpperCase` (ASCII range). -/
def jsToUpper (s : String) : String := ⟨s.data.map Char.toUpper⟩

/-- `String.prototype.trim`. -/
def jsTrim (s : String) : String :=
  ⟨((s.data.dropWhile Char.isWhitespace).reverse.dropWhile
      Char.isWhitespace).reverse⟩

/-- `String.prototype.startsWith`. -/
def jsStartsWith (s pre : String) : Bool :=
  pre.data.isPrefixOf s.data

/-- `String.prototype.indexOf` (first occurrence, or `-1`). -/
def jsIndexOf (s sub : String) : Int :=
  go s.data
where
  go : List Char → Int
    | [] => if sub.data.isEmpty then 0 else -1
    | c :: rest =>
      if sub.data.isPrefixOf (c :: rest) then 0
      else
        let r := go rest
        if r < 0 then -1 else r + 1

/-- `String.prototype.slice(start)` (one-argument form). -/
def jsSlice (s : String) (start : Int) : String :=
  let len : Int := s.data.length
  let i := if start < 0 then max (len + start) 0 else min start len
  ⟨s.data.drop i.toNat⟩

/-- `String.prototype.search(/\S/)`: index of the first non-whitespace
character, or `-1`. -/
def jsSearchNonWs (s : String) : Int :=
  match s.data.findIdx? (fun c => !c.isWhitespace) with
  | some i => (i : Int)
  | none => -1

/-- `.split(/\s{1,}|\n{1,}/)[0]`: the characters before the first
whitespace.  (When the string starts with whitespace both produce `""`.) -/
def jsFirstToken (s : String) : String :=
  ⟨s.data.takeWhile (fun c => !c.isWhitespace)⟩

/-! ## Association-list primitives (JS `Map`/object semantics) -/

/-- Lookup in an association list (JS `Map.prototype.get`). -/
def lookupA {β : Type} (l : List (String × β)) (k : String) : Option β :=
  match l with
  | [] => none
  | (k', v) :: rest => if k' == k then some v else lookupA rest k

/-- Update/insert in an association list (JS `Map.prototype.set` / property
assignment): overwrites in place if the key exists, otherwise appends. -/
def setA {β : Type} (l : List (String × β)) (k : String) (v : β) :
    List (String × β) :=
  match l with
  | [] => [(k, v)]
  | (k', v') :: rest => if k' == k then (k, v) :: rest else (k', v') :: setA rest k v

/-- Delete from an association list (JS `Map.prototype.delete`). -/
def eraseA {β : Type} (l : List (String × β)) (k : String) : List (String × β) :=
  match l with
  | [] => []
  | (k', v') :: rest => if k' == k then rest else (k', v') :: eraseA rest k

/-! ## Messages -/

/-- A chat message, restricted to the fields the command handler reads
(`message.id`, `message.author.id`, `message.author.bot`,
`message.channel.id` / `nsfw`, `message.guild`, timestamps, `content`). -/
structure Msg where
  id : String := ""
  authorId : String := ""
  authorBot : Bool := false
  channelId : String := ""
  channelNsfw : Bool := false
  guildId : Option String := none
  createdTimestamp : Int := 0
  editedTimestamp : Option Int := none
  content : String := ""
deriving Repr, DecidableEq

/-- `Snowflake | Snowflake[] | IgnoreCheckPredicate`: the shapes accepted by
`ignoreCooldown` / `ignorePermissions`.  The predicate receives the message
and the command (identified here by its id). -/
inductive Ignorer where
  | one (s : String)
  | many (l : List String)
  | pred (f : Msg → String → Bool)

/-- The `isIgnored` computation of `runCooldowns` / `runPermissionChecks`:
`Array.isArray(ignorer) ? ignorer.includes(id) : typeof ignorer === "function"
? ignorer(message, command) : id === ignorer`. -/
def Ignorer.applies (i : Ignorer) (m : Msg) (commandId : String) : Bool :=
  match i with
  | .many l => l.contains m.authorId
  | .pred f => f m commandId
  | .one s => m.authorId == s

/-! ## Cooldowns (`CommandHandler.runCooldowns`, CitrusHandler.ts 2455-2502) -/

/-- `CooldownData`: the per-(user, command) record `{ timer, end, uses }`.
The `timer` handle is not data; its firing is the separate `fireCooldown`
action below. -/
structure CooldownData where
  endTime : Int
  uses : Int
deriving Repr, DecidableEq

/-- `this.cooldowns : Collection<string, { [id: string]: CooldownData }>`.
A command slot holding `none` models the `null` the timer callback writes. -/
abbrev Cooldowns := List (String × List (String × Option CooldownData))

/-- The entry currently stored for `(userId, commandId)` (missing and `null`
slots both count as absent, as the `if (!...)` tests in the source do). -/
def getEntry (cd : Cooldowns) (userId commandId : String) : Option CooldownData :=
  match lookupA cd userId with
  | none => none
  | some userMap =>
    match lookupA userMap commandId with
    | some (some e) => some e
    | _ => none

/-! ## Flags and command pieces -/

/-- The result of `command.parse(message, content)`: either a plain args
object (its payload is opaque to the dispatcher, kept here as a `String`
token) or a control-flow `Flag`.

Modelled from the spec: `Flag.ts` is not among the provided sources.  The
spec describes a Flag as "a tagged value distinguishable from normal argument
results, one of `cancel`, `retry` (carrying a replacement message), or
`continue` (carrying a command name, leftover `rest` text and an
`ignore`-inhibitors flag)"; `Flag.is(value, type)` is the tag test used by
`handleDirectCommand`. -/
inductive ParseResult where
  | args (v : String)
  | cancel
  | retry (message : Msg)
  | cont (command : String) (rest : String) (ignore : Bool)
deriving Repr, DecidableEq

/-- Outcome of invoking `command.exec` (or `before`): a normal return or a
thrown error, identified by a message string. -/
inductive ExecRes where
  | ok
  | thrown (e : String)
deriving Repr, DecidableEq

/-- The events the handler `emit`s, with the payload fields our theorems
inspect.  Event names follow `CommandHandlerEvents`. -/
inductive Event where
  | messageBlocked (msgId reason : String)
  | inPrompt (msgId : String)
  | commandBlocked (msgId commandId reason : String)
  | missingPermissions (msgId commandId who : String)
  | cooldown (msgId commandId : String) (remaining : Int)
  | commandLocked (msgId commandId : String)
  | commandCancelled (msgId commandId : String)
  | commandBreakout (msgId commandId retryMsgId : String)
  | commandStarted (msgId commandId : String) (args : ParseResult)
  | commandFinished (msgId commandId : String) (args : ParseResult)
  | error (e : String) (msgId : String) (commandId : Option String)
  | slashOnlyBlock (msgId commandId : String)
  | messageInvalid (msgId : String)
deriving Repr, DecidableEq

/- Modelled from the spec: `Constants.ts` (`BuiltInReasons`) is not among
the provided sources; the reasons are opaque tags named after the constants
used in `CitrusHandler.ts`. -/
namespace BuiltInReasons

def CLIENT : String := "client"
def BOT : String := "bot"
def AUTHOR_NOT_FOUND : String := "authorNotFound"
def OWNER : String := "owner"
def SUPER_USER : String := "superUser"
def GUILD : String := "guild"
def DM : String := "dm"
def NOT_NSFW : String := "notNsfw"

end BuiltInReasons

/-- An inhibitor module (`Inhibitor.ts`): `type` ∈ {"all","pre","post"},
`priority`, `reason`, and the user-supplied `exec(message, command?)`
predicate (the command argument is identified here by its id). -/
structure Inhib where
  id : String := ""
  type : String := "post"
  reason : String := ""
  priority : Int := 0
  exec : Msg → Option String → Bool := fun _ _ => false

/-- The resolved value of `this.prefix` (after `intoCallable(...)(message)`):
a single string or an array of strings. -/
inductive PrefixVal where
  | str (s : String)
  | arr (l : List String)
deriving Repr, DecidableEq

/-- A `Command` module, restricted to the options the dispatch pipeline
reads.  User-supplied hooks (`parse` composes `contentParser` +
`argumentRunner`; `exec`; `before`; `condition`; permission suppliers; the
lock `KeySupplier`) are embedded as Lean functions.  Static permission lists
are resolved against channel state by the external platform client, so both
permission shapes are modelled by their resulting missing-permissions
outcome (`none` = nothing missing / `null` return). -/
structure Cmd where
  id : String := ""
  editable : Bool := true
  cooldown : Option Int := none
  ratelimit : Int := 1
  ignoreCooldown : Option Ignorer := none
  ignorePermissions : Option Ignorer := none
  ownerOnly : Bool := false
  superUserOnly : Bool := false
  channel : Option String := none
  onlyNsfw : Bool := false
  clientPermissions : Option (Msg → Option String) := none
  userPermissions : Option (Msg → Option String) := none
  lock : Option (Msg → ParseResult → Option String) := none
  slashOnly : Bool := false
  hasPrefixOverride : Bool := false
  condition : Msg → Bool := fun _ => false
  before : Msg → ExecRes := fun _ => .ok
  parse : Msg → String → ParseResult := fun _ _ => .args ""
  exec : Msg → ParseResult → ExecRes := fun _ _ => .ok

/-- The handler-level configuration and registries read during dispatch
(`CommandHandler` options, the client's owner tables, the loaded modules and
the alias table).  These do not change during the runs we model. -/
structure Env where
  blockClient : Bool := true
  blockBots : Bool := true
  clientUserId : String := "client"
  ownerIDs : List String := []
  superUserIDs : List String := []
  ignoreCooldown : Ignorer := .many []
  ignorePermissions : Option Ignorer := none
  defaultCooldown : Int := 0
  skipBuiltInPostInhibitors : Bool := false
  hasErrorListener : Bool := false
  inhibitors : Option (List Inhib) := none
  aliases : List (String × String) := []
  modules : List Cmd := []
  prefixVal : PrefixVal := .str "!"
  overridePairs : List (String × List String) := []
  prompts : List (String × List String) := []

/-- `CitrusClient.isOwner` with the array-shaped `ownerID`. -/
def Env.isOwner (env : Env) (userId : String) : Bool :=
  env.ownerIDs.contains userId

/-- `CitrusClient.isSuperUser` with the array-shaped `superUserID`. -/
def Env.isSuperUser (env : Env) (userId : String) : Bool :=
  env.superUserIDs.contains userId || env.ownerIDs.contains userId

/-- `this.modules.get(id)` on the command registry. -/
def Env.findModule (env : Env) (id : String) : Option Cmd :=
  env.modules.find? (fun c => c.id == id)

/-- `CommandHandler.findCommand(name)`:
`this.modules.get(this.aliases.get(name.toLowerCase())!)`. -/
def Env.findCommand (env : Env) (name : String) : Option Cmd :=
  match lookupA env.aliases (jsToLower name) with
  | none => none
  | some cid => env.findModule cid

/-- Result of `runCooldowns`: the returned boolean (`true` = blocked), the
updated cooldown table, and the emitted events. -/
structure RCRes where
  blocked : Bool
  cooldowns : Cooldowns
  events : List Event
deriving Repr, DecidableEq

/-- `CommandHandler.runCooldowns` (CitrusHandler.ts 2455-2502), as a pure
function of the cooldown table.  The `setTimeout(…, time)` registered when
an entry is created is modelled by the separate `fireCooldown` action, which
the event loop performs `time` ms after the creating use. -/
def runCooldowns (env : Env) (cd : Cooldowns) (m : Msg) (c : Cmd) : RCRes :=
  let id := m.authorId
  -- const ignorer = command.ignoreCooldown || this.ignoreCooldown
  let ignorer := c.ignoreCooldown.getD env.ignoreCooldown
  if ignorer.applies m c.id then ⟨false, cd, []⟩
  else
    -- const time = command.cooldown != null ? command.cooldown : this.defaultCooldown
    let time := c.cooldown.getD env.defaultCooldown
    if time = 0 then ⟨false, cd, []⟩
    else
      let endTime := m.createdTimestamp + time
      -- if (!this.cooldowns.has(id)) this.cooldowns.set(id, {})
      let cd1 := if (lookupA cd id).isSome then cd else setA cd id []
      let userMap1 := (lookupA cd1 id).getD []
      -- if (!this.cooldowns.get(id)![command.id]) { … create with timer, end, uses: 0 }
      let created :=
        match lookupA userMap1 c.id with
        | some (some _) => (cd1, userMap1)
        | _ =>
          let um := setA userMap1 c.id (some { endTime := endTime, uses := 0 })
          (setA cd1 id um, um)
      -- const entry = this.cooldowns.get(id)![command.id]
      match lookupA created.2 c.id with
      | some (some entry) =>
        if c.ratelimit ≤ entry.uses then
          -- const diff = end - message.createdTimestamp; emit COOLDOWN
          ⟨true, created.1, [.cooldown m.id c.id (entry.endTime - m.createdTimestamp)]⟩
        else
          -- entry.uses++
          ⟨false,
            setA created.1 id (setA created.2 c.id
              (some { endTime := entry.endTime, uses := entry.uses + 1 })), []⟩
      | _ => ⟨false, created.1, []⟩  -- unreachable: the entry was just ensured

/-- The `setTimeout` callback registered at entry creation (CitrusHandler.ts
2475-2483): it nulls the `(userId, commandId)` slot and deletes the user
record if its key set is empty (it never is, because the nulled key
remains). -/
def fireCooldown (cd : Cooldowns) (userId commandId : String) : Cooldowns :=
  match lookupA cd userId with
  | none => cd  -- the source would fault here; a timer only exists for a live record
  | some userMap =>
    let userMap := setA userMap commandId none
    if userMap.isEmpty then eraseA cd userId else setA cd userId userMap

/-- Iterated `runCooldowns` over a list of messages (the calls made within
one window, in order); returns the final table, the per-call results and the
concatenated events. -/
def runCooldownsMany (env : Env) (c : Cmd) (cd : Cooldowns) :
    List Msg → Cooldowns × List Bool × List Event
  | [] => (cd, [], [])
  | m :: rest =>
    let r := runCooldowns env cd m c
    let rec' := runCooldownsMany env c r.cooldowns rest
    (rec'.1, r.blocked :: rec'.2.1, r.events ++ rec'.2.2)

/-- Write an entry for `(userId, commandId)` (helper for stating what
`runCooldowns` does to the table). -/
def putEntry (cd : Cooldowns) (userId commandId : String) (e : CooldownData) :
    Cooldowns :=
  setA cd userId (setA ((lookupA cd userId).getD []) commandId (some e))

/-- One window of the scenario claim C2 rules out, computed concretely: a
first use (creating the entry and registering its expiry timer), a second
accepted use strictly inside the active window, then the timer firing — the
timer was registered by `setTimeout(…, time)` at the first use, so it fires
at `m0.createdTimestamp + time`, the end of the window.  Returns `true` when
that fire cleared the entry even though a further use fell inside the
window. -/
def clearedDespiteFurtherUse (env : Env) (c : Cmd) (m0 m1 : Msg) : Bool :=
  let time := c.cooldown.getD env.defaultCooldown
  let r0 := runCooldowns env [] m0 c
  let r1 := runCooldowns env r0.cooldowns m1 c
  !r0.blocked && !r1.blocked
    && decide (m0.createdTimestamp < m1.createdTimestamp)
    && decide (m1.createdTimestamp < m0.createdTimestamp + time)
    && (getEntry r1.cooldowns m0.authorId c.id).isSome
    && (getEntry (fireCooldown r1.cooldowns m0.authorId c.id)
          m0.authorId c.id).isNone

/-- Claim C2 as stated: the cooldown entry is "cleared only after the full
cooldown elapses with no further use", i.e. the end-of-window clearing can
never happen when a further use fell inside the active window. -/
def SlidingWindowClaim : Prop :=
  ∀ (env : Env) (c : Cmd) (m0 m1 : Msg),
    clearedDespiteFurtherUse env c m0 m1 = false

/-! ## A stable comparator sort (`Array.prototype.sort`) -/

/-- Insert one element into a sorted list: it moves past exactly the
elements that compare strictly before it, so equal elements keep their
original relative order. -/
def insertCmp {α : Type} (cmp : α → α → Ordering) (x : α) : List α → List α
  | [] => [x]
  | y :: ys => if cmp x y == .gt then y :: insertCmp cmp x ys else x :: y :: ys

/-- Stable insertion sort, modelling ES2019+ `Array.prototype.sort` (which
is required to be stable) under a consistent comparator. -/
def sortCmp {α : Type} (cmp : α → α → Ordering) : List α → List α
  | [] => []
  | x :: xs => insertCmp cmp x (sortCmp cmp xs)

/-! ## `InhibitorHandler.test` (InhibitorHandler.ts 68-96) -/

/-- The comparator `(a, b) => b.priority - a.priority` used on the inhibited
inhibitors: descending priority. -/
def priorityDesc (a b : Inhib) : Ordering :=
  compare b.priority a.priority

/-- `InhibitorHandler.test(type, message, command?)`: filter the loaded
modules (in declaration = insertion order) down to the requested stage, run
every one of them (all `exec` promises are started together and awaited with
`Promise.all` — each one is consulted, none can short-circuit another), keep
the inhibitors that returned a truthy value, sort them by descending
priority and answer the first one's reason, or `null` when none fired. -/
def InhibitorHandler.test (modules : List Inhib) (type : String) (m : Msg)
    (command : Option String) : Option String :=
  if modules.isEmpty then none
  else
    let inhibitors := modules.filter (fun i => i.type == type)
    if inhibitors.isEmpty then none
    else
      let inhibitedInhibitors := inhibitors.filter (fun i => i.exec m command)
      if inhibitedInhibitors.isEmpty then none
      else
        match sortCmp priorityDesc inhibitedInhibitors with
        | [] => none
        | top :: _ => some top.reason

/-- Specification-worded selector, for comparison: the earliest-declared
inhibitor of maximal priority ("highest numeric priority first, ties broken
by declaration order"). -/
def specFirstMaxPriority : List Inhib → Option Inhib
  | [] => none
  | i :: rest =>
    match specFirstMaxPriority rest with
    | none => some i
    | some j => if j.priority > i.priority then some j else some i

/-! ## `ContextMenuCommandHandler.handle` -/

/-- A context menu command (`ContextMenuCommand.ts`), with the outcome of
its `exec(interaction)` embedded. -/
structure CtxCmd where
  name : String := ""
  ownerOnly : Bool := false
  superUserOnly : Bool := false
  exec : ExecRes := .ok
deriving Repr, DecidableEq

/-- The fields of a `ContextMenuCommandInteraction` the handler reads. -/
structure Interaction where
  commandName : String := ""
  userId : String := ""
deriving Repr, DecidableEq

/-- Events of `ContextCommandHandlerEvents`, with the payloads our theorems
inspect. -/
inductive CtxEvent where
  | notFound (commandName : String)
  | blocked (commandName reason : String)
  | started (commandName : String)
  | finished (commandName : String)
  | errored (e commandName : String)
deriving Repr, DecidableEq

/-- The context-menu handler's configuration: loaded modules (in load
order), the client's owner tables, and whether an `error` listener is
registered. -/
structure CtxEnv where
  modules : List CtxCmd := []
  ownerIDs : List String := []
  superUserIDs : List String := []
  hasErrorListener : Bool := false

def CtxEnv.isOwner (env : CtxEnv) (userId : String) : Bool :=
  env.ownerIDs.contains userId

def CtxEnv.isSuperUser (env : CtxEnv) (userId : String) : Bool :=
  env.superUserIDs.contains userId || env.ownerIDs.contains userId

/-- Result of `ContextMenuCommandHandler.handle`: the resolved boolean, or a
re-thrown error (`emitError` throws when no `error` listener exists). -/
inductive CtxRes where
  | ret (b : Bool)
  | thrown (e : String)
deriving Repr, DecidableEq

/-- `ContextMenuCommandHandler.handle` (part_004, 91-115).  Note that the
`ownerOnly` / `superUserOnly` blocks `emit` the blocked event but do *not*
return: control falls through to the execution block regardless. -/
def ContextMenuCommandHandler.handle (env : CtxEnv) (i : Interaction) :
    CtxRes × List CtxEvent :=
  match env.modules.find? (fun m => m.name == i.commandName) with
  | none => (.ret false, [.notFound i.commandName])
  | some command =>
    let evs1 :=
      if command.ownerOnly && !env.isOwner i.userId then
        [CtxEvent.blocked command.name BuiltInReasons.OWNER]
      else []
    let evs2 :=
      if command.superUserOnly && !env.isSuperUser i.userId then
        [CtxEvent.blocked command.name BuiltInReasons.SUPER_USER]
      else []
    match command.exec with
    | .ok =>
      (.ret true, evs1 ++ evs2 ++ [.started command.name, .finished command.name])
    | .thrown e =>
      if env.hasErrorListener then
        (.ret false, evs1 ++ evs2 ++ [.started command.name, .errored e command.name])
      else
        (.thrown e, evs1 ++ evs2 ++ [.started command.name])

/-! ## Built-in argument-type casters (TypeResolver, part_002) -/

/-- Does JavaScript's `ToNumber` map this string to a non-`NaN` number?
This is the `isNaN(+phrase)` guard of the numeric casters.  Covers the
`StringNumericLiteral` grammar: optional whitespace trim, the empty string
(`0`), signed decimal literals with optional fraction and exponent, signed
`Infinity`, and unsigned hex/octal/binary literals. -/
def isJSNumericString (s : String) : Bool :=
  let t := jsTrim s
  if t = "" then true
  else jsNumericLiteral t.data
where
  jsExpPart : List Char → Bool
    | 'e' :: rest | 'E' :: rest =>
      let rest := match rest with | '+' :: r => r | '-' :: r => r | r => r
      !rest.isEmpty && rest.all (·.isDigit)
    | _ => false
  jsUnsignedDecimal (cs : List Char) : Bool :=
    let ip := cs.takeWhile (·.isDigit)
    let rest := cs.dropWhile (·.isDigit)
    match rest with
    | [] => !ip.isEmpty
    | '.' :: rest2 =>
      let fp := rest2.takeWhile (·.isDigit)
      let rest3 := rest2.dropWhile (·.isDigit)
      (!ip.isEmpty || !fp.isEmpty) && (rest3.isEmpty || jsExpPart rest3)
    | _ => !ip.isEmpty && jsExpPart rest
  jsSignedDecimal (cs : List Char) : Bool :=
    let cs := match cs with | '+' :: r => r | '-' :: r => r | r => r
    cs = "Infinity".data || jsUnsignedDecimal cs
  jsNumericLiteral : List Char → Bool
    | '0' :: 'x' :: rest | '0' :: 'X' :: rest =>
      !rest.isEmpty && rest.all (fun c => c.isDigit || ('a' ≤ c && c ≤ 'f') || ('A' ≤ c && c ≤ 'F'))
    | '0' :: 'o' :: rest | '0' :: 'O' :: rest =>
      !rest.isEmpty && rest.all (fun c => '0' ≤ c && c ≤ '7')
    | '0' :: 'b' :: rest | '0' :: 'B' :: rest =>
      !rest.isEmpty && rest.all (fun c => c = '0' || c = '1')
    | cs => jsSignedDecimal cs

/-- JavaScript's `BigInt(string)` conversion: `none` models the thrown
`SyntaxError`.  The `StringIntegerLiteral` grammar accepts (after trimming)
the empty string (`0n`), an optionally signed run of decimal digits, or
unsigned hex/octal/binary runs — and nothing else: no decimal point, no
exponent, no `Infinity`. -/
def jsBigIntOfString (s : String) : Option Int :=
  let t := jsTrim s
  if t = "" then some 0
  else match t.data with
  | '0' :: 'x' :: rest | '0' :: 'X' :: rest => radixVal 16 rest
  | '0' :: 'o' :: rest | '0' :: 'O' :: rest => radixVal 8 rest
  | '0' :: 'b' :: rest | '0' :: 'B' :: rest => radixVal 2 rest
  | '-' :: rest => (radixVal 10 rest).map Neg.neg
  | '+' :: rest => radixVal 10 rest
  | cs => radixVal 10 cs
where
  digitVal (c : Char) : Nat :=
    if c.isDigit then c.toNat - '0'.toNat
    else if 'a' ≤ c ∧ c ≤ 'f' then c.toNat - 'a'.toNat + 10
    else if 'A' ≤ c ∧ c ≤ 'F' then c.toNat - 'A'.toNat + 10
    else 99
  radixVal (radix : Nat) (cs : List Char) : Option Int :=
    if cs.isEmpty || !cs.all (fun c => digitVal c < radix) then none
    else some (cs.foldl (fun n c => n * radix + digitVal c) (0 : Nat) : Nat)

/-- The `STRING` built-in caster: `phrase || null`. -/
def stringCaster (phrase : String) : Option String :=
  if phrase = "" then none else some phrase

/-- The `LOWERCASE` built-in caster: `phrase ? phrase.toLowerCase() : null`. -/
def lowercaseCaster (phrase : String) : Option String :=
  if phrase = "" then none else some (jsToLower phrase)

/-- The `UPPERCASE` built-in caster: `phrase ? phrase.toUpperCase() : null`. -/
def uppercaseCaster (phrase : String) : Option String :=
  if phrase = "" then none else some (jsToUpper phrase)

/-- The `CHAR_CODES` built-in caster. -/
def charCodesCaster (phrase : String) : Option (List Nat) :=
  if phrase = "" then none else some (phrase.data.map (·.toNat))

/-- The `BIGINT` built-in caster (part_002, 114-117):
`if (!phrase || isNaN(+phrase)) return null; return BigInt(phrase);`.
The result models the caster's behaviour including a thrown `SyntaxError`:
`BigInt(phrase)` throws whenever `phrase` is outside the BigInt string
grammar, and the guard only filters phrases `ToNumber` sends to `NaN`. -/
def bigintCaster (phrase : String) : Except String (Option Int) :=
  if phrase = "" || !isJSNumericString phrase then .ok none
  else
    match jsBigIntOfString phrase with
    | some n => .ok (some n)
    | none => .error "SyntaxError: Cannot convert phrase to a BigInt"

/-! ## Prefix resolution (`parseCommand` and friends) -/

/-- `ParsedComponentData`: the result of one prefix parse.  The source's
`prefix` field is called `pfx` here (`prefix` is reserved in Lean). -/
structure ParsedComponentData where
  command : Option Cmd := none
  pfx : Option String := none
  alias' : Option String := none
  content : Option String := none
  afterPrefix : Option String := none

/-- Lexicographic string comparison (the tie-break of `prefixCompare`). -/
def strLex (a b : String) : Ordering :=
  if a < b then .lt else if b < a then .gt else .eq

/-- Modelled from the spec: `Util.prefixCompare` (src/util/Util.ts is not
among the provided sources).  §4.6: "Prefixes are compared so that, among
all configured prefixes, the longest string sorts first unless one is the
exact mention-form of the bot; string equality ties break by lexicographic
order."  A mention-form sorts before any other prefix; otherwise the longer
string sorts first and equal lengths compare lexicographically. -/
def prefixCompare (ments : List String) (a b : String) : Ordering :=
  if ments.contains a && !ments.contains b then .lt
  else if ments.contains b && !ments.contains a then .gt
  else if a.data.length = b.data.length then strLex a b
  else if b.data.length < a.data.length then .lt
  else .gt

/-- The two mention-forms `<@id>` / `<@!id>` prepended by `parseCommand`. -/
def mentionsOf (clientUserId : String) : List String :=
  ["<@" ++ clientUserId ++ ">", "<@!" ++ clientUserId ++ ">"]

/-- `Util.intoArray` on the resolved prefix value. -/
def PrefixVal.intoArray : PrefixVal → List String
  | .str s => [s]
  | .arr l => l

/-- JS truthiness of the resolved prefix value (`if (allowMention) …`): any
array is truthy; only the empty string is falsy. -/
def PrefixVal.truthy : PrefixVal → Bool
  | .str s => !(s == "")
  | .arr _ => true

/-- `CommandHandler.parseWithPrefix` (2596-2626). -/
def parseWithPrefix (env : Env) (m : Msg) (pfx : String)
    (associatedCommands : Option (List String) := none) : ParsedComponentData :=
  let lowerContent := jsToLower m.content
  if !jsStartsWith lowerContent (jsToLower pfx) then {}
  else
    let endOfPrefix := jsIndexOf lowerContent (jsToLower pfx) + (pfx.data.length : Int)
    let startOfArgs :=
      jsSearchNonWs (jsSlice m.content endOfPrefix) + (pfx.data.length : Int)
    let alias' := jsFirstToken (jsSlice m.content startOfArgs)
    let command := env.findCommand alias'
    let content := jsTrim (jsSlice m.content (startOfArgs + alias'.data.length + 1))
    let afterPrefix := jsTrim (jsSlice m.content (pfx.data.length : Int))
    match command with
    | none =>
      { pfx := some pfx, alias' := some alias', content := some content,
        afterPrefix := some afterPrefix }
    | some c =>
      match associatedCommands with
      | none =>
        if c.hasPrefixOverride then
          { pfx := some pfx, alias' := some alias', content := some content,
            afterPrefix := some afterPrefix }
        else
          { command := some c, pfx := some pfx, alias' := some alias',
            content := some content, afterPrefix := some afterPrefix }
      | some assoc =>
        if !assoc.contains c.id then
          { pfx := some pfx, alias' := some alias', content := some content,
            afterPrefix := some afterPrefix }
        else
          { command := some c, pfx := some pfx, alias' := some alias',
            content := some content, afterPrefix := some afterPrefix }

/-- `CommandHandler.parseMultiplePrefixes` (2574-2587): the first parse that
resolved a command wins; otherwise the first that at least matched a prefix;
otherwise `{}`. -/
def parseMultiplePrefixes (env : Env) (m : Msg)
    (pairs : List (String × Option (List String))) : ParsedComponentData :=
  let parses := pairs.map (fun p => parseWithPrefix env m p.1 p.2)
  match parses.find? (fun parsed => parsed.command.isSome) with
  | some result => result
  | none =>
    match parses.find? (fun parsed => parsed.pfx.isSome) with
    | some guess => guess
    | none => {}

/-- `CommandHandler.parseCommand` (2535-2548): the resolved `this.prefix`
value doubles as the mention flag; when truthy the two mention-forms are
prepended, the candidate list is sorted with `Util.prefixCompare`, and all
candidates are tried in order. -/
def parseCommand (env : Env) (m : Msg) : ParsedComponentData :=
  let allowMention := env.prefixVal
  let prefixes := allowMention.intoArray
  let prefixes :=
    if allowMention.truthy then mentionsOf env.clientUserId ++ prefixes
    else prefixes
  let sorted := sortCmp (prefixCompare (mentionsOf env.clientUserId)) prefixes
  parseMultiplePrefixes env m (sorted.map (fun p => (p, none)))

/-- `CommandHandler.parseCommandOverwrittenPrefixes` (2554-2567), with the
per-command prefix-supplier outputs pre-resolved into
`(prefix, associated command ids)` pairs. -/
def parseCommandOverwrittenPrefixes (env : Env) (m : Msg) : ParsedComponentData :=
  if env.overridePairs.isEmpty then {}
  else
    let pairs := sortCmp
      (fun a b => prefixCompare (mentionsOf env.clientUserId) a.1 b.1)
      env.overridePairs
    parseMultiplePrefixes env m (pairs.map (fun p => (p.1, some p.2)))

/-! ## The dispatch pipeline -/

/-- The handler state the pipeline mutates: the cooldown table, each
command's `locker` set (keyed by command id), and the emitted event trace. -/
structure HState where
  cooldowns : Cooldowns := []
  lockers : List (String × List String) := []
  trace : List Event := []
deriving Repr, DecidableEq

/-- `this.emit(...)`: append to the trace. -/
def HState.emit (st : HState) (e : Event) : HState :=
  { st with trace := st.trace ++ [e] }

/-- `command.locker?.has(key)`. -/
def lockerHas (st : HState) (commandId key : String) : Bool :=
  ((lookupA st.lockers commandId).getD []).contains key

/-- `command.locker?.add(key)`. -/
def lockerAdd (st : HState) (commandId key : String) : HState :=
  { st with
    lockers := setA st.lockers commandId
      (key :: (lookupA st.lockers commandId).getD []) }

/-- `command.locker?.delete(key)`. -/
def lockerDel (st : HState) (commandId key : String) : HState :=
  { st with
    lockers := setA st.lockers commandId
      (((lookupA st.lockers commandId).getD []).erase key) }

/-- `CommandHandler.hasPrompt(channel, user)`. -/
def hasPrompt (env : Env) (m : Msg) : Bool :=
  ((lookupA env.prompts m.channelId).getD []).contains m.authorId

/-- The settled value of an async handler entry point: a resolved
`boolean | null`, or a rejection. -/
inductive HRes where
  | ret (b : Option Bool)
  | thrown (e : String)
deriving Repr, DecidableEq

/-- `CommandHandler.emitError` (2634-2641): emit the `error` event when a
listener is registered, otherwise re-throw (the returned `some e`). -/
def emitError (env : Env) (st : HState) (e : String) (m : Msg)
    (commandId : Option String) : HState × Option String :=
  if env.hasErrorListener then (st.emit (.error e m.id commandId), none)
  else (st, some e)

/-- `CommandHandler.runPermissionChecks` (2398-2448) for prefixed commands.
Permission suppliers are the function shape; a static permission list is
resolved against channel state by the external platform client and is
modelled by the same missing-outcome function. -/
def runPermissionChecks (env : Env) (st : HState) (m : Msg) (c : Cmd) :
    HState × Bool :=
  let afterClient : HState × Bool :=
    match c.clientPermissions with
    | some supplier =>
      match supplier m with
      | some _missing => (st.emit (.missingPermissions m.id c.id "client"), true)
      | none => (st, false)
    | none => (st, false)
  if afterClient.2 then afterClient
  else
    match c.userPermissions with
    | some supplier =>
      -- const ignorer = command.ignorePermissions || this.ignorePermissions
      let ignorer :=
        match c.ignorePermissions with
        | some ig => some ig
        | none => env.ignorePermissions
      let isIgnored :=
        match ignorer with
        | some ig => ig.applies m c.id
        | none => false
      if isIgnored then (afterClient.1, false)
      else
        match supplier m with
        | some _missing =>
          (afterClient.1.emit (.missingPermissions m.id c.id "user"), true)
        | none => (afterClient.1, false)
    | none => (afterClient.1, false)

/-- `CommandHandler.runPostTypeInhibitors` (2326-2390) for prefixed commands:
built-ins (owner, superuser, guild/DM restriction, NSFW) in fixed order,
then permission checks, then the custom `post` inhibitors, then the cooldown
check. -/
def runPostTypeInhibitors (env : Env) (st : HState) (m : Msg) (c : Cmd) :
    HState × Bool :=
  let skip := env.skipBuiltInPostInhibitors
  if !skip && (c.ownerOnly && !env.isOwner m.authorId) then
    (st.emit (.commandBlocked m.id c.id BuiltInReasons.OWNER), true)
  else if !skip && (c.superUserOnly && !env.isSuperUser m.authorId) then
    (st.emit (.commandBlocked m.id c.id BuiltInReasons.SUPER_USER), true)
  else if !skip && (c.channel == some "guild" && m.guildId.isNone) then
    (st.emit (.commandBlocked m.id c.id BuiltInReasons.GUILD), true)
  else if !skip && (c.channel == some "dm" && m.guildId.isSome) then
    (st.emit (.commandBlocked m.id c.id BuiltInReasons.DM), true)
  else if !skip && (c.onlyNsfw && !m.channelNsfw) then
    (st.emit (.commandBlocked m.id c.id BuiltInReasons.NOT_NSFW), true)
  else
    let p1 := if !skip then runPermissionChecks env st m c else (st, false)
    if p1.2 then (p1.1, true)
    else
      let st1 := p1.1
      let reason :=
        match env.inhibitors with
        | some mods => InhibitorHandler.test mods "post" m (some c.id)
        | none => none
      let p2 :=
        if skip && reason.isNone then runPermissionChecks env st1 m c
        else (st1, false)
      if p2.2 then (p2.1, true)
      else
        let st2 := p2.1
        match reason with
        | some r => (st2.emit (.commandBlocked m.id c.id r), true)
        | none =>
          let rc := runCooldowns env st2.cooldowns m c
          ({ st2 with
             cooldowns := rc.cooldowns
             trace := st2.trace ++ rc.events }, rc.blocked)

/-- `CommandHandler.runCommand` (2510-2529).  The typing-indicator interval
is an external side effect (cleared in the source's own `finally`), and the
`!command || !message` guard cannot fire in the typed model.  A throw from
`exec` is returned for the caller's catch. -/
def runCommand (st : HState) (m : Msg) (c : Cmd) (args : ParseResult) :
    HState × Option String :=
  let st := st.emit (.commandStarted m.id c.id args)
  match c.exec m args with
  | .ok => (st.emit (.commandFinished m.id c.id args), none)
  | .thrown e => (st, some e)

/-- `CommandHandler.runAllTypeInhibitors` (2284-2302) for messages (the
`slash = false` path).  Messages in this model always carry an author, so
the `!message.author` built-in cannot fire. -/
def runAllTypeInhibitors (env : Env) (st : HState) (m : Msg) : HState × Bool :=
  let reason :=
    match env.inhibitors with
    | some mods => InhibitorHandler.test mods "all" m none
    | none => none
  match reason with
  | some r => (st.emit (.messageBlocked m.id r), true)
  | none =>
    if env.blockClient && m.authorId == env.clientUserId then
      (st.emit (.messageBlocked m.id BuiltInReasons.CLIENT), true)
    else if env.blockBots && m.authorBot then
      (st.emit (.messageBlocked m.id BuiltInReasons.BOT), true)
    else if hasPrompt env m then
      (st.emit (.inPrompt m.id), true)
    else (st, false)

/-- `CommandHandler.runPreTypeInhibitors` (2308-2318). -/
def runPreTypeInhibitors (env : Env) (st : HState) (m : Msg) : HState × Bool :=
  let reason :=
    match env.inhibitors with
    | some mods => InhibitorHandler.test mods "pre" m none
    | none => none
  match reason with
  | some r => (st.emit (.messageBlocked m.id r), true)
  | none => (st, false)

/-- One conditional command's task (the async closure of
`handleConditionalCommands`): post-type inhibitors, `before`, then
`runCommand` with `{}` args, errors caught per task via `emitError`; the
`Option String` accumulates the first re-thrown error. -/
def conditionalStep (env : Env) (m : Msg) (acc : HState × Option String)
    (c : Cmd) : HState × Option String :=
  let gate := runPostTypeInhibitors env acc.1 m c
  if gate.2 then (gate.1, acc.2)
  else
    match c.before m with
    | .thrown e =>
      match emitError env gate.1 e m (some c.id) with
      | (st', none) => (st', acc.2)
      | (st', some e') => (st', acc.2.getD e' |> some)
    | .ok =>
      let rr := runCommand gate.1 m c (.args "")
      match rr.2 with
      | none => (rr.1, acc.2)
      | some e =>
        match emitError env rr.1 e m (some c.id) with
        | (st', none) => (st', acc.2)
        | (st', some e') => (st', acc.2.getD e' |> some)

/-- `CommandHandler.handleConditionalCommands` (2238-2277).  The matching
commands' tasks are started together and awaited with `Promise.all`; the
model runs them in module order (the single-threaded loop interleaves only
at awaits).  Each task catches its own errors via `emitError`; when that
re-throws (no `error` listener) the first such error rejects the aggregate
(the second component).  Commands with regex triggers are outside this
embedding, so `handleRegexAndConditionalCommands` reduces to this. -/
def handleConditionalCommands (env : Env) (st : HState) (m : Msg) :
    HState × Option String × Bool :=
  let trueCommands := env.modules.filter (fun c =>
    !(m.editedTimestamp.isSome && !c.editable) && c.condition m)
  if trueCommands.isEmpty then (st, none, false)
  else
    let res := trueCommands.foldl (conditionalStep env m) (st, none)
    (res.1, res.2, true)

/-- A pending call into the mutually recursive pair
`handle` / `handleDirectCommand`. -/
inductive Call where
  | handleMsg (m : Msg)
  | direct (m : Msg) (content : String) (c : Cmd) (ignore : Bool)

/-- How the `try` block of `handleDirectCommand` ends: a plain `return`, a
`throw` (observed by its own `catch`), or `return <inner promise>` — the
`retry`/`continue` branches return the inner call's promise, so the `try`
completes before that promise settles: the local `catch` never observes the
inner rejection, while the `finally` has already run. -/
inductive BodyOut where
  | retB (b : Option Bool)
  | throwB (e : String)
  | passB (r : HRes)

/-- The prefix parse of `CommandHandler.handle` (1856-1868): `parseCommand`,
retried against the per-command prefix overrides when no command was found,
keeping the override result when it found a command or at least a prefix. -/
def parsedFor (env : Env) (m : Msg) : ParsedComponentData :=
  let parsed0 := parseCommand env m
  if parsed0.command.isNone then
    let overParsed := parseCommandOverwrittenPrefixes env m
    if overParsed.command.isSome ||
        (parsed0.pfx.isNone && overParsed.pfx.isSome) then overParsed
    else parsed0
  else parsed0

/-- The tail of `CommandHandler.handle` after `handleDirectCommand` returns
(1874-1887): a `false`-ish resolution emits `messageInvalid`, and a rejection
is routed through `emitError` (the surrounding `catch`). -/
def finishHandle (env : Env) (m : Msg) (r : HState × HRes) : HState × HRes :=
  match r.2 with
  | .ret (some ranB) =>
    if ranB then (r.1, .ret (some true))
    else (r.1.emit (.messageInvalid m.id), .ret (some false))
  | .ret none => (r.1, .ret none)
  | .thrown e =>
    match emitError env r.1 e m none with
    | (st', none) => (st', .ret none)
    | (st', some e') => (st', .thrown e')

/-- The tail of `CommandHandler.handle` on the no-command path (1869-1887):
the aggregate of the conditional-command tasks is awaited, a rejection goes
through `emitError`, and when nothing ran `messageInvalid` is emitted. -/
def finishConditional (env : Env) (m : Msg)
    (rc : HState × Option String × Bool) : HState × HRes :=
  match rc.2.1 with
  | some e =>
    match emitError env rc.1 e m none with
    | (st', none) => (st', .ret none)
    | (st', some e') => (st', .thrown e')
  | none =>
    if rc.2.2 then (rc.1, .ret (some true))
    else (rc.1.emit (.messageInvalid m.id), .ret (some false))

/-- The tail of `handleDirectCommand`: its `catch` (routing a `throw` of the
try body through `emitError`) followed by its `finally`
(`if (key) command.locker?.delete(key)`), applied to how the try body ended. -/
def finishDirect (env : Env) (m : Msg) (c : Cmd)
    (body : HState × Option String × BodyOut) : HState × HRes :=
  let caught : HState × HRes :=
    match body.2.2 with
    | .retB b => (body.1, .ret b)
    | .passB r => (body.1, r)
    | .throwB e =>
      match emitError env body.1 e m (some c.id) with
      | (st', none) => (st', .ret none)
      | (st', some e') => (st', .thrown e')
  match body.2.1 with
  | some key => (lockerDel caught.1 c.id key, caught.2)
  | none => caught

/-- `CommandHandler.handle` (1840-1897) and
`CommandHandler.handleDirectCommand` (2116-2165), merged into one function
structurally recursing on fuel so that every run evaluates.  The recursive
calls are the `retry` Flag (`return this.handle(args.message)`) and the
`continue` Flag (`return this.handleDirectCommand(…)`).  `fetchMembers` and
the `commandUtil` cache touch only the external client and are not
modelled. -/
def dispatch (env : Env) : Nat → Call → HState → HState × HRes
  | 0, _, st => (st, .thrown "recursion fuel exhausted")
  | Nat.succ fuel, .handleMsg m, st =>
    let a := runAllTypeInhibitors env st m
    if a.2 then (a.1, .ret (some false))
    else
      let p := runPreTypeInhibitors env a.1 m
      if p.2 then (p.1, .ret (some false))
      else
        let st1 := p.1
        let parsed := parsedFor env m
        match parsed.command with
        | some c =>
          if c.slashOnly then
            (st1.emit (.slashOnlyBlock m.id c.id), .ret (some false))
          else
            finishHandle env m
              (dispatch env fuel (.direct m (parsed.content.getD "") c false) st1)
        | none =>
          finishConditional env m (handleConditionalCommands env st1 m)
  | Nat.succ fuel, .direct m content c ignore, st =>
    -- the try body; the `Option String` component tracks the lock key added,
    -- for the finally clause
    finishDirect env m c <|
      if !ignore && m.editedTimestamp.isSome && !c.editable then
        (st, none, .retB (some false))
      else
        let gate := if ignore then (st, false) else runPostTypeInhibitors env st m c
        if gate.2 then (gate.1, none, .retB (some false))
        else
          let st1 := gate.1
          match c.before m with
          | .thrown e => (st1, none, .throwB e)
          | .ok =>
            match c.parse m content with
            | .cancel =>
              (st1.emit (.commandCancelled m.id c.id), none, .retB (some true))
            | .retry m2 =>
              let st2 := st1.emit (.commandBreakout m.id c.id m2.id)
              let r := dispatch env fuel (.handleMsg m2) st2
              (r.1, none, .passB r.2)
            | .cont cid rest ign =>
              match env.findModule cid with
              | some continueCommand =>
                let r := dispatch env fuel (.direct m rest continueCommand ign) st1
                (r.1, none, .passB r.2)
              | none =>
                -- `this.modules.get(args.command)!` is `undefined`; the member
                -- access inside the recursive call throws a TypeError
                (st1, none, .throwB "TypeError: module not found")
            | .args v =>
              let runIt := fun (stR : HState) (key : Option String) =>
                let rr := runCommand stR m c (.args v)
                match rr.2 with
                | none => (rr.1, key, BodyOut.retB (some true))
                | some e => (rr.1, key, BodyOut.throwB e)
              match (if ignore then none else c.lock) with
              | none => runIt st1 none
              | some supplier =>
                match supplier m (.args v) with
                | none => runIt st1 none
                | some key =>
                  -- `has` and `add` run back to back, with no await between
                  if lockerHas st1 c.id key then
                    (st1.emit (.commandLocked m.id c.id), none, .retB (some true))
                  else
                    runIt (lockerAdd st1 c.id key) (some key)

/-- `CommandHandler.handle(message)`. -/
def handle (env : Env) (fuel : Nat) (st : HState) (m : Msg) : HState × HRes :=
  dispatch env fuel (.handleMsg m) st

/-- `CommandHandler.handleDirectCommand(message, content, command, ignore)`. -/
def handleDirectCommand (env : Env) (fuel : Nat) (st : HState) (m : Msg)
    (content : String) (c : Cmd) (ignore : Bool := false) : HState × HRes :=
  dispatch env fuel (.direct m content c ignore) st

/-! ## The lock protocol as a small-step machine (claim C3)

`handleDirectCommand` suspends at its `await` points (inhibitors, `before`,
`parse`, the key supplier, `runCommand`); two invocations of it interleave
only at those points.  The machine below cuts one invocation into the
resulting atomic segments: everything before the lock check (`start`), the
`has`/`add` check-and-insert (`acquire`, which has no internal await), the
body (`run`, for `runCommand`), and the `finally`'s delete (`rel`). -/

/-- Outcome of one invocation, as far as the lock protocol is concerned:
an exit before the lock section (edited-message skip, post-inhibitor block,
`cancel`/`retry`/`continue` Flag, or a throw before the lock — none of which
touch the locker), an exit through the `commandLocked` branch, or a
completed body (normal return or caught/rethrown error — the `finally` runs
either way). -/
inductive LOutcome where
  | preExit
  | lockedExit
  | completed
deriving Repr, DecidableEq

/-- The phase an invocation is in, between awaits. -/
inductive LPhase where
  | start
  | acquire
  | run
  | rel
  | done (o : LOutcome)
deriving Repr, DecidableEq

/-- One invocation's relevant inputs. -/
structure LInv where
  key : String
  preExits : Bool := false

/-- The observable actions: the command body starting, and the
`commandLocked` emission. -/
inductive LEv where
  | execStarted (who : Nat)
  | locked (who : Nat)
deriving Repr, DecidableEq

/-- A configuration of two interleaved invocations sharing one command's
`locker`. -/
structure LConf where
  locker : List String := []
  ph1 : LPhase := .start
  ph2 : LPhase := .start
  evs : List LEv := []
deriving Repr, DecidableEq

/-- One atomic segment of one invocation. -/
def lstep (who : Nat) (inv : LInv) (locker : List String) :
    LPhase → List String × LPhase × List LEv
  | .start => (locker, if inv.preExits then .done .preExit else .acquire, [])
  | .acquire =>
    if locker.contains inv.key then (locker, .done .lockedExit, [.locked who])
    else (inv.key :: locker, .run, [])
  | .run => (locker, .rel, [.execStarted who])
  | .rel => (locker.erase inv.key, .done .completed, [])
  | .done o => (locker, .done o, [])

/-- One scheduler step: `true` steps invocation 1, `false` steps
invocation 2. -/
def lstep1 (inv1 inv2 : LInv) (b : Bool) (conf : LConf) : LConf :=
  if b then
    let r := lstep 1 inv1 conf.locker conf.ph1
    { conf with locker := r.1, ph1 := r.2.1, evs := conf.evs ++ r.2.2 }
  else
    let r := lstep 2 inv2 conf.locker conf.ph2
    { conf with locker := r.1, ph2 := r.2.1, evs := conf.evs ++ r.2.2 }

/-- Run a schedule. -/
def lrun (inv1 inv2 : LInv) : List Bool → LConf → LConf
  | [], conf => conf
  | b :: s, conf => lrun inv1 inv2 s (lstep1 inv1 inv2 b conf)

/-- An invocation holds the lock from its successful `add` until its
`finally` deletes the key. -/
def holding : LPhase → Bool
  | .run => true
  | .rel => true
  | _ => false

/-- The inductive invariant of the two-invocation lock machine for a shared
key `k` over a locker that starts as `l0` (without `k`): the locker contains
`k` exactly while someone holds it (and is otherwise untouched), at most one
invocation holds at a time, and an invocation's body has started exactly
when it is past its `run` phase. -/
def LockI (k : String) (l0 : List String) (conf : LConf) : Prop :=
  (conf.locker = if holding conf.ph1 || holding conf.ph2 then k :: l0 else l0) ∧
  ¬(holding conf.ph1 = true ∧ holding conf.ph2 = true) ∧
  (LEv.execStarted 1 ∈ conf.evs ↔
    (conf.ph1 = .rel ∨ conf.ph1 = .done .completed)) ∧
  (LEv.execStarted 2 ∈ conf.evs ↔
    (conf.ph2 = .rel ∨ conf.ph2 = .done .completed))

/-- The property claim C6 tracks on traces: every `commandStarted` event —
emitted exactly where `command.exec` is invoked — carries a plain args
object, never a control Flag. -/
def eventStartedOk : Event → Bool
  | .commandStarted _ _ (.args _) => true
  | .commandStarted _ _ _ => false
  | _ => true

/-- The configuration of the spec's prefix-ordering example: prefixes
`["!", "!!"]` and one command `ping` (aliased `ping`). -/
def pingEnv : Env :=
  { prefixVal := .arr ["!", "!!"]
    clientUserId := "42"
    aliases := [("ping", "ping")]
    modules := [{ id := "ping" }] }

/-- The example message `"!!ping"`. -/
def pingMsg : Msg :=
  { id := "m", authorId := "u", content := "!!ping" }

theorem lookupA_setA_self {β : Type} (l : List (String × β)) (k : String) (v : β) :
    lookupA (setA l k v) k = some v := by
  induction l with
  | nil => simp [lookupA, setA]
  | cons hd tl ih =>
    obtain ⟨k', v'⟩ := hd
    by_cases h : k' = k
    · simp [lookupA, setA, h]
    · simp [lookupA, setA, h, ih]

theorem lookupA_setA_ne {β : Type} (l : List (String × β)) (k k' : String) (v : β)
    (h : k' ≠ k) : lookupA (setA l k v) k' = lookupA l k' := by
  induction l with
  | nil => simp [lookupA, setA, Ne.symm h]
  | cons hd tl ih =>
    obtain ⟨k₀, v₀⟩ := hd
    by_cases hk : k₀ = k
    · subst hk
      simp [lookupA, setA, Ne.symm h]
    · simp [lookupA, setA, hk, ih]

theorem setA_setA {β : Type} (l : List (String × β)) (k : String) (v v' : β) :
    setA (setA l k v) k v' = setA l k v' := by
  induction l with
  | nil => simp [setA]
  | cons hd tl ih =>
    obtain ⟨k₀, v₀⟩ := hd
    by_cases h : k₀ = k
    · simp [setA, h]
    · simp [setA, h, ih]

theorem getEntry_putEntry (cd : Cooldowns) (u cid : String) (e : CooldownData) :
    getEntry (putEntry cd u cid e) u cid = some e := by
  simp [getEntry, putEntry, lookupA_setA_self]

theorem getEntry_some_inv (cd : Cooldowns) (u cid : String) (e : CooldownData)
    (h : getEntry cd u cid = some e) :
    ∃ um, lookupA cd u = some um ∧ lookupA um cid = some (some e) := by
  unfold getEntry at h
  split at h
  · exact absurd h (by simp)
  · rename_i um heq
    split at h
    · rename_i e' heq2
      simp only [Option.some.injEq] at h
      subst h
      exact ⟨um, heq, heq2⟩
    · exact absurd h (by simp)

theorem getEntry_none_inv (cd : Cooldowns) (u cid : String)
    (h : getEntry cd u cid = none) :
    lookupA cd u = none ∨
      ∃ um, lookupA cd u = some um ∧
        (lookupA um cid = none ∨ lookupA um cid = some none) := by
  unfold getEntry at h
  split at h
  · rename_i heq; exact Or.inl heq
  · rename_i um heq
    split at h
    · exact absurd h (by simp)
    · rename_i hne
      right
      refine ⟨um, heq, ?_⟩
      rcases h2 : lookupA um cid with _ | (_ | e')
      · exact Or.inl rfl
      · exact Or.inr rfl
      · exact absurd h2 (by intro hc; exact hne e' hc)

/-- What one `runCooldowns` call does when an entry is already live:
block (leaving the table untouched) when the use counter has reached the
rate limit, otherwise increment the counter. -/
theorem runCooldowns_entry (env : Env) (cd : Cooldowns) (m : Msg) (c : Cmd)
    (e : CooldownData)
    (hIgn : (c.ignoreCooldown.getD env.ignoreCooldown).applies m c.id = false)
    (hT0 : ¬ c.cooldown.getD env.defaultCooldown = 0)
    (h : getEntry cd m.authorId c.id = some e) :
    runCooldowns env cd m c =
      if c.ratelimit ≤ e.uses then
        ⟨true, cd, [.cooldown m.id c.id (e.endTime - m.createdTimestamp)]⟩
      else
        ⟨false, putEntry cd m.authorId c.id
          { endTime := e.endTime, uses := e.uses + 1 }, []⟩ := by
  obtain ⟨um, h1, h2⟩ := getEntry_some_inv cd m.authorId c.id e h
  simp [runCooldowns, hIgn, hT0, h1, h2, putEntry]

/-- What one `runCooldowns` call does when no entry is live for
`(message.author.id, command.id)`: create one (scheduling its expiry timer),
then the same limit check runs against the fresh counter. -/
theorem runCooldowns_fresh (env : Env) (cd : Cooldowns) (m : Msg) (c : Cmd)
    (hIgn : (c.ignoreCooldown.getD env.ignoreCooldown).applies m c.id = false)
    (hT0 : ¬ c.cooldown.getD env.defaultCooldown = 0)
    (h : getEntry cd m.authorId c.id = none) :
    runCooldowns env cd m c =
      if c.ratelimit ≤ 0 then
        ⟨true, putEntry cd m.authorId c.id
            { endTime := m.createdTimestamp + c.cooldown.getD env.defaultCooldown,
              uses := 0 },
          [.cooldown m.id c.id (c.cooldown.getD env.defaultCooldown)]⟩
      else
        ⟨false, putEntry cd m.authorId c.id
          { endTime := m.createdTimestamp + c.cooldown.getD env.defaultCooldown,
            uses := 1 }, []⟩ := by
  rcases getEntry_none_inv cd m.authorId c.id h with h1 | ⟨um, h1, h2 | h2⟩
  · -- the user record itself is absent
    simp [runCooldowns, hIgn, hT0, h1, putEntry, lookupA_setA_self, setA_setA,
      lookupA]
  · simp [runCooldowns, hIgn, hT0, h1, h2, putEntry, lookupA_setA_self,
      setA_setA]
  · simp [runCooldowns, hIgn, hT0, h1, h2, putEntry, lookupA_setA_self,
      setA_setA]

theorem runCooldownsMany_cons (env : Env) (c : Cmd) (cd : Cooldowns) (m : Msg)
    (rest : List Msg) :
    runCooldownsMany env c cd (m :: rest) =
      ((runCooldownsMany env c (runCooldowns env cd m c).cooldowns rest).1,
       (runCooldowns env cd m c).blocked ::
         (runCooldownsMany env c (runCooldowns env cd m c).cooldowns rest).2.1,
       (runCooldowns env cd m c).events ++
         (runCooldownsMany env c (runCooldowns env cd m c).cooldowns rest).2.2) :=
  rfl

/-- Iterating `runCooldowns` from a live entry until (and including) the
blocking call: with `uses + length = ratelimit + 1`, every call but the last
is accepted, and the last is blocked, emitting the cooldown event computed
from the stored `end` timestamp and the blocking message's
`createdTimestamp`. -/
theorem runMany_to_block (env : Env) (c : Cmd) (u : String) :
    ∀ (msgs : List Msg) (hne : msgs ≠ []) (cd : Cooldowns) (e : CooldownData),
      getEntry cd u c.id = some e →
      (∀ m ∈ msgs, m.authorId = u ∧
        (c.ignoreCooldown.getD env.ignoreCooldown).applies m c.id = false) →
      ¬ c.cooldown.getD env.defaultCooldown = 0 →
      e.uses + (msgs.length : Int) = c.ratelimit + 1 →
      (runCooldownsMany env c cd msgs).2.1
          = List.replicate (msgs.length - 1) false ++ [true] ∧
      (runCooldownsMany env c cd msgs).2.2
          = [Event.cooldown (msgs.getLast hne).id c.id
              (e.endTime - (msgs.getLast hne).createdTimestamp)]
  | [], hne, _, _, _, _, _, _ => absurd rfl hne
  | [m], _, cd, e, hent, hall, hT0, harith => by
      obtain ⟨hu, hign⟩ := hall m (by simp)
      have hent' : getEntry cd m.authorId c.id = some e := by rw [hu]; exact hent
      have hblock : c.ratelimit ≤ e.uses := by
        simp only [List.length_cons, List.length_nil] at harith; omega
      simp [runCooldownsMany, runCooldowns_entry env cd m c e hign hT0 hent',
        hblock]
  | m :: m' :: rest, _, cd, e, hent, hall, hT0, harith => by
      obtain ⟨hu, hign⟩ := hall m (by simp)
      have hent' : getEntry cd m.authorId c.id = some e := by rw [hu]; exact hent
      have haccept : ¬ c.ratelimit ≤ e.uses := by
        simp only [List.length_cons] at harith; push_cast at harith; omega
      have hrc := runCooldowns_entry env cd m c e hign hT0 hent'
      have hent2 : getEntry (putEntry cd m.authorId c.id
          { endTime := e.endTime, uses := e.uses + 1 }) u c.id
          = some { endTime := e.endTime, uses := e.uses + 1 } := by
        rw [← hu]; exact getEntry_putEntry ..
      have ih := runMany_to_block env c u (m' :: rest) (by simp)
        (putEntry cd m.authorId c.id { endTime := e.endTime, uses := e.uses + 1 })
        { endTime := e.endTime, uses := e.uses + 1 }
        hent2 (fun x hx => hall x (by simp [hx]))
        hT0 (by simp only [List.length_cons] at harith ⊢; push_cast at harith ⊢; omega)
      rw [runCooldownsMany_cons, hrc, if_neg haccept]
      refine ⟨?_, ?_⟩
      · show false :: _ = _
        rw [ih.1]
        simp [List.replicate_succ]
      · show [] ++ _ = _
        rw [ih.2]
        simp [List.getLast_cons]

/-- C1 — Within one active cooldown window of a command with rate limit `N`
and effective non-zero cooldown `T`, a non-ignored user's first `N` calls to
`runCooldowns` return `false` (allowed, counter incremented) and the
`(N+1)`-th returns `true`, emitting a `cooldown` event whose remaining time
is the stored entry's `end` timestamp (first use's `createdTimestamp + T`)
minus the blocking message's `createdTimestamp`. -/
theorem cooldown_ratelimit_window (env : Env) (c : Cmd) (u : String) (N : Nat)
    (T : Int) (m0 : Msg) (rest : List Msg) (cd : Cooldowns)
    (hrl : c.ratelimit = (N : Int))
    (hT : c.cooldown.getD env.defaultCooldown = T) (hT0 : T ≠ 0)
    (hfresh : getEntry cd u c.id = none)
    (hlen : rest.length = N)
    (hmine : ∀ m ∈ m0 :: rest, m.authorId = u ∧
      (c.ignoreCooldown.getD env.ignoreCooldown).applies m c.id = false)
    (hwindow : ∀ m ∈ m0 :: rest,
      m0.createdTimestamp ≤ m.createdTimestamp ∧
      m.createdTimestamp < m0.createdTimestamp + T) :
    (runCooldownsMany env c cd (m0 :: rest)).2.1
        = List.replicate N false ++ [true] ∧
    (runCooldownsMany env c cd (m0 :: rest)).2.2
        = [Event.cooldown ((m0 :: rest).getLast (by simp)).id c.id
            ((m0.createdTimestamp + T)
              - ((m0 :: rest).getLast (by simp)).createdTimestamp)] := by
  obtain ⟨hu0, hign0⟩ := hmine m0 (by simp)
  have hT0' : ¬ c.cooldown.getD env.defaultCooldown = 0 := by rw [hT]; exact hT0
  have hfresh' : getEntry cd m0.authorId c.id = none := by rw [hu0]; exact hfresh
  have hrc := runCooldowns_fresh env cd m0 c hign0 hT0' hfresh'
  rcases Nat.eq_zero_or_pos N with hN | hN
  · -- ratelimit 0: the very first call creates the entry and blocks at once
    subst hN
    have hrest : rest = [] := List.eq_nil_of_length_eq_zero hlen
    subst hrest
    have hblock : c.ratelimit ≤ (0 : Int) := by rw [hrl]; norm_num
    simp only [hT] at hrc
    simp [runCooldownsMany, hrc, hblock]
  · -- ratelimit ≥ 1: the first call is accepted with uses = 1
    have haccept : ¬ c.ratelimit ≤ (0 : Int) := by rw [hrl]; omega
    have hrest : rest ≠ [] := by
      intro hc; rw [hc] at hlen; simp at hlen; omega
    have hent2 : getEntry (putEntry cd m0.authorId c.id
        { endTime := m0.createdTimestamp + T, uses := 1 }) u c.id
        = some { endTime := m0.createdTimestamp + T, uses := 1 } := by
      rw [← hu0]; exact getEntry_putEntry ..
    have ih := runMany_to_block env c u rest hrest
      (putEntry cd m0.authorId c.id { endTime := m0.createdTimestamp + T, uses := 1 })
      { endTime := m0.createdTimestamp + T, uses := 1 }
      hent2 (fun x hx => hmine x (by simp [hx])) hT0'
      (by rw [hrl, hlen]; push_cast; omega)
    simp only [hT] at hrc
    rw [runCooldownsMany_cons, hrc, if_neg haccept]
    refine ⟨?_, ?_⟩
    · show false :: _ = _
      rw [ih.1]
      rw [hlen]
      rcases Nat.exists_eq_succ_of_ne_zero (by omega : N ≠ 0) with ⟨k, hk⟩
      subst hk
      simp [List.replicate_succ]
    · show [] ++ _ = _
      rw [ih.2]
      simp [List.getLast_cons hrest]

theorem getEntry_putEntry_other (cd : Cooldowns) (u cid u' cid' : String)
    (e : CooldownData) (hne : ¬(u' = u ∧ cid' = cid)) :
    getEntry (putEntry cd u cid e) u' cid' = getEntry cd u' cid' := by
  by_cases hu : u' = u
  · subst hu
    have hcid : cid' ≠ cid := fun hc => hne ⟨rfl, hc⟩
    rcases h1 : lookupA cd u' with _ | um
    · simp [getEntry, putEntry, h1, lookupA_setA_self,
        lookupA_setA_ne _ _ _ _ hcid, lookupA, Ne.symm hcid]
    · simp [getEntry, putEntry, h1, lookupA_setA_self,
        lookupA_setA_ne _ _ _ _ hcid]
  · simp [getEntry, putEntry, lookupA_setA_ne _ _ _ _ hu]

/-- A use never destroys a live cooldown entry: whatever `runCooldowns` call
happens, an existing `(user, command)` entry survives with its `end`
timestamp unchanged (at most its use counter grows). -/
theorem runCooldowns_preserves_entry (env : Env) (cd : Cooldowns) (m : Msg)
    (c : Cmd) (u cid : String) (e : CooldownData)
    (h : getEntry cd u cid = some e) :
    ∃ e', getEntry (runCooldowns env cd m c).cooldowns u cid = some e' ∧
      e'.endTime = e.endTime ∧ (e'.uses = e.uses ∨ e'.uses = e.uses + 1) := by
  by_cases hIgn : (c.ignoreCooldown.getD env.ignoreCooldown).applies m c.id
  · refine ⟨e, ?_, rfl, Or.inl rfl⟩
    simp [runCooldowns, hIgn]
    exact h
  · rw [Bool.not_eq_true] at hIgn
    by_cases hT : c.cooldown.getD env.defaultCooldown = 0
    · refine ⟨e, ?_, rfl, Or.inl rfl⟩
      simp [runCooldowns, hIgn, hT]
      exact h
    · by_cases hpair : u = m.authorId ∧ cid = c.id
      · obtain ⟨hu, hcid⟩ := hpair
        subst hu; subst hcid
        rw [runCooldowns_entry env cd m c e hIgn hT h]
        by_cases hb : c.ratelimit ≤ e.uses
        · exact ⟨e, by simp [hb, h], rfl, Or.inl rfl⟩
        · exact ⟨{ endTime := e.endTime, uses := e.uses + 1 },
            by simp [hb, getEntry_putEntry], rfl, Or.inr rfl⟩
      · have hne : ¬(u = m.authorId ∧ cid = c.id) := hpair
        rcases hent : getEntry cd m.authorId c.id with _ | e₀
        · rw [runCooldowns_fresh env cd m c hIgn hT hent]
          by_cases hb : c.ratelimit ≤ (0 : Int)
          · exact ⟨e, by simp [hb, getEntry_putEntry_other _ _ _ _ _ _ hne, h],
              rfl, Or.inl rfl⟩
          · exact ⟨e, by simp [hb, getEntry_putEntry_other _ _ _ _ _ _ hne, h],
              rfl, Or.inl rfl⟩
        · rw [runCooldowns_entry env cd m c e₀ hIgn hT hent]
          by_cases hb : c.ratelimit ≤ e₀.uses
          · exact ⟨e, by simp [hb, h], rfl, Or.inl rfl⟩
          · exact ⟨e, by simp [hb, getEntry_putEntry_other _ _ _ _ _ _ hne, h],
              rfl, Or.inl rfl⟩

theorem setA_ne_nil {β : Type} (l : List (String × β)) (k : String) (v : β) :
    setA l k v ≠ [] := by
  cases l with
  | nil => simp [setA]
  | cons hd tl => simp only [setA]; split <;> simp

/-- The expiry-timer callback always clears its `(user, command)` slot: after
`fireCooldown` the entry is gone, no matter how many uses were recorded. -/
theorem fireCooldown_clears (cd : Cooldowns) (u cid : String) :
    getEntry (fireCooldown cd u cid) u cid = none := by
  unfold fireCooldown
  rcases h1 : lookupA cd u with _ | um
  · simp [getEntry, h1]
  · have hne := setA_ne_nil um cid none
    simp [getEntry, h1, lookupA_setA_self, List.isEmpty_iff, hne]

/-- C2 counterexample — the window is fixed, not sliding: with cooldown
1000ms and rate limit 5, a first use at t=0 and a further accepted use at
t=100, the expiry timer registered at the first use fires at t=1000 and
clears the entry even though a further use fell inside the active window.
This falsifies "cleared only after the full cooldown elapses with no further
use". -/
theorem cooldown_cleared_despite_further_use : ¬ SlidingWindowClaim := by
  intro h
  exact absurd
    (h { ignoreCooldown := .many [] }
       { id := "c", cooldown := some 1000, ratelimit := 5 }
       { id := "m0", authorId := "u", createdTimestamp := 0 }
       { id := "m1", authorId := "u", createdTimestamp := 100 })
    (by decide)

/-- C2 (amended) — per (user, command), the cooldown entry created on first
use is never destroyed by further uses (a use leaves the entry in place,
with its `end` timestamp unchanged and its counter at most incremented); the
entry is cleared exactly when its expiry timer fires — `cooldown` ms after
the *first* use — and that clearing happens regardless of whether further
uses occurred inside the window. -/
theorem cooldown_entry_lifecycle :
    (∀ (env : Env) (cd : Cooldowns) (m : Msg) (c : Cmd) (u cid : String)
        (e : CooldownData), getEntry cd u cid = some e →
      ∃ e', getEntry (runCooldowns env cd m c).cooldowns u cid = some e' ∧
        e'.endTime = e.endTime ∧ (e'.uses = e.uses ∨ e'.uses = e.uses + 1)) ∧
    (∀ (cd : Cooldowns) (u cid : String),
      getEntry (fireCooldown cd u cid) u cid = none) :=
  ⟨runCooldowns_preserves_entry, fireCooldown_clears⟩

/-- Witness for `cooldown_entry_lifecycle` at a concrete live entry. -/
theorem cooldown_entry_lifecycle_witness :
    (∃ e', getEntry (runCooldowns { ignoreCooldown := .many [] }
        [("u", [("c", some ⟨1000, 1⟩)])]
        { id := "m1", authorId := "u", createdTimestamp := 100 }
        { id := "c", cooldown := some 1000, ratelimit := 5 }).cooldowns "u" "c"
        = some e' ∧
      e'.endTime = (1000 : Int) ∧ (e'.uses = (1 : Int) ∨ e'.uses = 1 + 1)) ∧
    getEntry (fireCooldown [("u", [("c", some ⟨1000, 2⟩)])] "u" "c") "u" "c"
      = none :=
  ⟨cooldown_entry_lifecycle.1 { ignoreCooldown := .many [] }
      [("u", [("c", some ⟨1000, 1⟩)])]
      { id := "m1", authorId := "u", createdTimestamp := 100 }
      { id := "c", cooldown := some 1000, ratelimit := 5 } "u" "c" ⟨1000, 1⟩
      (by decide),
   cooldown_entry_lifecycle.2 [("u", [("c", some ⟨1000, 2⟩)])] "u" "c"⟩

/-- C8 — the `BIGINT` built-in caster is not fail-closed: the phrase `"1.5"`
passes the `isNaN(+phrase)` guard (`+"1.5"` is `1.5`, not `NaN`), and
`BigInt("1.5")` then throws a `SyntaxError` on this per-message input.  The
sibling casters and the empty/unparseable routes of `BIGINT` itself do fail
closed. -/
theorem bigint_caster_throws :
    bigintCaster "1.5" = .error "SyntaxError: Cannot convert phrase to a BigInt" ∧
    isJSNumericString "1.5" = true ∧
    bigintCaster "" = .ok none ∧
    bigintCaster "abc" = .ok none ∧
    bigintCaster "12" = .ok (some 12) ∧
    stringCaster "" = none ∧
    lowercaseCaster "" = none ∧
    uppercaseCaster "" = none ∧
    charCodesCaster "" = none :=
  ⟨rfl, rfl, rfl, rfl, rfl, rfl, rfl, rfl, rfl⟩

/-- C10 — a context-menu command marked `ownerOnly` (resp. `superUserOnly`)
invoked by a non-owner (resp. non-super-user) emits the `blocked` event but
is nevertheless still executed: the handler falls through to `exec` and
returns `true` when `exec` does not throw. -/
theorem context_menu_blocked_still_executes (env : CtxEnv) (i : Interaction)
    (cmd : CtxCmd)
    (hfind : env.modules.find? (fun mod => mod.name == i.commandName) = some cmd)
    (hexec : cmd.exec = .ok) :
    (cmd.ownerOnly = true → env.isOwner i.userId = false →
      (ContextMenuCommandHandler.handle env i).1 = .ret true ∧
      CtxEvent.blocked cmd.name BuiltInReasons.OWNER
          ∈ (ContextMenuCommandHandler.handle env i).2 ∧
      CtxEvent.started cmd.name ∈ (ContextMenuCommandHandler.handle env i).2 ∧
      CtxEvent.finished cmd.name ∈ (ContextMenuCommandHandler.handle env i).2) ∧
    (cmd.superUserOnly = true → env.isSuperUser i.userId = false →
      (ContextMenuCommandHandler.handle env i).1 = .ret true ∧
      CtxEvent.blocked cmd.name BuiltInReasons.SUPER_USER
          ∈ (ContextMenuCommandHandler.handle env i).2 ∧
      CtxEvent.started cmd.name ∈ (ContextMenuCommandHandler.handle env i).2 ∧
      CtxEvent.finished cmd.name ∈ (ContextMenuCommandHandler.handle env i).2) := by
  constructor
  · intro howner hisOwner
    simp [ContextMenuCommandHandler.handle, hfind, hexec, howner, hisOwner]
  · intro hsuper hisSuper
    simp [ContextMenuCommandHandler.handle, hfind, hexec, hsuper, hisSuper]

/-- Witness for `context_menu_blocked_still_executes`: an `ownerOnly` menu
command invoked by a non-owner. -/
theorem context_menu_blocked_still_executes_witness :
    (ContextMenuCommandHandler.handle
        { modules := [{ name := "menu", ownerOnly := true }],
          ownerIDs := ["boss"] }
        { commandName := "menu", userId := "someone" }).1 = .ret true ∧
    CtxEvent.blocked "menu" BuiltInReasons.OWNER
        ∈ (ContextMenuCommandHandler.handle
        { modules := [{ name := "menu", ownerOnly := true }],
          ownerIDs := ["boss"] }
        { commandName := "menu", userId := "someone" }).2 ∧
    CtxEvent.started "menu"
        ∈ (ContextMenuCommandHandler.handle
        { modules := [{ name := "menu", ownerOnly := true }],
          ownerIDs := ["boss"] }
        { commandName := "menu", userId := "someone" }).2 ∧
    CtxEvent.finished "menu"
        ∈ (ContextMenuCommandHandler.handle
        { modules := [{ name := "menu", ownerOnly := true }],
          ownerIDs := ["boss"] }
        { commandName := "menu", userId := "someone" }).2 :=
  (context_menu_blocked_still_executes
      { modules := [{ name := "menu", ownerOnly := true }],
        ownerIDs := ["boss"] }
      { commandName := "menu", userId := "someone" }
      { name := "menu", ownerOnly := true } (by decide) (by decide)).1
    (by decide) (by decide)

/-- Witness for `cooldown_ratelimit_window`: rate limit 2, cooldown 1000ms,
three uses at t = 0, 100, 200; results `[false, false, true]` and remaining
time 800 on the third. -/
theorem cooldown_ratelimit_window_witness :
    (runCooldownsMany { ignoreCooldown := .many ["owner"] }
        { id := "ping", cooldown := some 1000, ratelimit := 2 }
        []
        [{ id := "m0", authorId := "u", createdTimestamp := 0 },
         { id := "m1", authorId := "u", createdTimestamp := 100 },
         { id := "m2", authorId := "u", createdTimestamp := 200 }]).2.1
      = List.replicate 2 false ++ [true] ∧
    (runCooldownsMany { ignoreCooldown := .many ["owner"] }
        { id := "ping", cooldown := some 1000, ratelimit := 2 }
        []
        [{ id := "m0", authorId := "u", createdTimestamp := 0 },
         { id := "m1", authorId := "u", createdTimestamp := 100 },
         { id := "m2", authorId := "u", createdTimestamp := 200 }]).2.2
      = [Event.cooldown "m2" "ping" 800] :=
  cooldown_ratelimit_window { ignoreCooldown := .many ["owner"] }
    { id := "ping", cooldown := some 1000, ratelimit := 2 } "u" 2 1000
    { id := "m0", authorId := "u", createdTimestamp := 0 }
    [{ id := "m1", authorId := "u", createdTimestamp := 100 },
     { id := "m2", authorId := "u", createdTimestamp := 200 }]
    [] (by norm_num) (by rfl) (by norm_num) (by rfl) (by rfl)
    (by intro m hm; fin_cases hm <;> simp [Ignorer.applies])
    (by intro m hm; fin_cases hm <;> norm_num)

/-- C5 counterexample — a parse returning
`Flag.continue({command: "b", rest: "x"})` (its `ignore` field `false`) does
*not* skip cooldown checks for `b`: with `b` already on cooldown for the
user, dispatching the continue Flag emits `b`'s `cooldown` event and `b`'s
body never starts (no `commandStarted` appears in the trace), and the
dispatch resolves `false`. -/
theorem continue_flag_reruns_cooldowns :
    (dispatch { modules := [{ id := "b", cooldown := some 1000, ratelimit := 1 }] }
        3
        (.direct { id := "m", authorId := "u", createdTimestamp := 0 } "args"
          { id := "a", parse := fun _ _ => .cont "b" "x" false } false)
        { cooldowns := [("u", [("b", some ⟨1000, 1⟩)])] }).1.trace
      = [Event.cooldown "m" "b" 1000] ∧
    (dispatch { modules := [{ id := "b", cooldown := some 1000, ratelimit := 1 }] }
        3
        (.direct { id := "m", authorId := "u", createdTimestamp := 0 } "args"
          { id := "a", parse := fun _ _ => .cont "b" "x" false } false)
        { cooldowns := [("u", [("b", some ⟨1000, 1⟩)])] }).2
      = .ret (some false) := by
  constructor
  · decide
  · decide

/-- C5 (amended) — a `continue` Flag dispatches the named command `b`
directly: `handleDirectCommand` recurses with the flag's `rest` text and
`ignore` value, so prefix resolution is not re-run and `b.parse` receives
`rest` verbatim; `b`'s post-type inhibitors — its cooldown check included —
are re-run unless the flag's `ignore` field is `true`, in which case they
are skipped entirely (no cooldown state is touched for `b`). -/
theorem continue_flag_direct_dispatch (env : Env) (st st1 : HState) (m : Msg)
    (c bc : Cmd) (content rest v : String) (ign : Bool) (fuel : Nat)
    (hedit : m.editedTimestamp = none)
    (hgate : runPostTypeInhibitors env st m c = (st1, false))
    (hbefore : c.before m = .ok)
    (hparse : c.parse m content = .cont bc.id rest ign)
    (hfind : env.findModule bc.id = some bc) :
    dispatch env (fuel + 1) (.direct m content c false) st
        = dispatch env fuel (.direct m rest bc ign) st1 ∧
    (ign = true → bc.before m = .ok → bc.parse m rest = .args v →
      bc.exec m (.args v) = .ok →
      ∀ fuel', dispatch env (fuel' + 1) (.direct m rest bc true) st1
        = ((st1.emit (.commandStarted m.id bc.id (.args v))).emit
            (.commandFinished m.id bc.id (.args v)), .ret (some true))) := by
  constructor
  · simp [dispatch, finishDirect, hedit, hgate, hbefore, hparse, hfind]
  · intro hign hbbefore hbparse hbexec fuel'
    simp [dispatch, finishDirect, hbbefore, hbparse, runCommand, hbexec]

/-- Witness for `continue_flag_direct_dispatch`: command `a`'s parse yields
`continue` to `b` with rest `"x"` and `ignore = true`; the dispatch equals
the direct dispatch of `b`, and `b` runs on `"x"` without touching
cooldowns. -/
theorem continue_flag_direct_dispatch_witness :
    (dispatch { modules := [{ id := "b", cooldown := some 1000, ratelimit := 1 }] }
        3
        (.direct { id := "m", authorId := "u" } "args"
          { id := "a", parse := fun _ _ => .cont "b" "x" true } false)
        { cooldowns := [("u", [("b", some ⟨1000, 1⟩)])] })
      = dispatch { modules := [{ id := "b", cooldown := some 1000, ratelimit := 1 }] }
        2
        (.direct { id := "m", authorId := "u" } "x"
          { id := "b", cooldown := some 1000, ratelimit := 1 } true)
        { cooldowns := [("u", [("b", some ⟨1000, 1⟩)])] } ∧
    dispatch { modules := [{ id := "b", cooldown := some 1000, ratelimit := 1 }] }
        3
        (.direct { id := "m", authorId := "u" } "x"
          { id := "b", cooldown := some 1000, ratelimit := 1 } true)
        { cooldowns := [("u", [("b", some ⟨1000, 1⟩)])] }
      = (({ cooldowns := [("u", [("b", some ⟨1000, 1⟩)])] } : HState).emit
            (.commandStarted "m" "b" (.args "")) |>.emit
            (.commandFinished "m" "b" (.args "")), .ret (some true)) := by
  have h := continue_flag_direct_dispatch
    { modules := [{ id := "b", cooldown := some 1000, ratelimit := 1 }] }
    { cooldowns := [("u", [("b", some ⟨1000, 1⟩)])] }
    { cooldowns := [("u", [("b", some ⟨1000, 1⟩)])] }
    { id := "m", authorId := "u" }
    { id := "a", parse := fun _ _ => .cont "b" "x" true }
    { id := "b", cooldown := some 1000, ratelimit := 1 }
    "args" "x" "" true 2 rfl (by decide) rfl rfl rfl
  exact ⟨h.1, h.2 rfl rfl rfl rfl 2⟩

/-- C9 — an error thrown by the command body is caught at the dispatch
boundary (`handleDirectCommand`'s catch) and routed through `emitError`:
with an `error` listener registered the error event is emitted and the
dispatch resolves `null`; with no listener the error is re-thrown and
propagates out of the dispatch. -/
theorem command_error_routed (env : Env) (st st1 : HState) (m : Msg) (c : Cmd)
    (content v e : String) (fuel : Nat)
    (hedit : m.editedTimestamp = none)
    (hgate : runPostTypeInhibitors env st m c = (st1, false))
    (hbefore : c.before m = .ok)
    (hparse : c.parse m content = .args v)
    (hlock : c.lock = none)
    (hexec : c.exec m (.args v) = .thrown e) :
    (env.hasErrorListener = true →
      dispatch env (fuel + 1) (.direct m content c false) st
        = ((st1.emit (.commandStarted m.id c.id (.args v))).emit
            (.error e m.id (some c.id)), .ret none)) ∧
    (env.hasErrorListener = false →
      dispatch env (fuel + 1) (.direct m content c false) st
        = (st1.emit (.commandStarted m.id c.id (.args v)), .thrown e)) := by
  constructor
  · intro hlisten
    simp [dispatch, finishDirect, hedit, hgate, hbefore, hparse, hlock,
      runCommand, hexec, emitError, hlisten]
  · intro hlisten
    simp [dispatch, finishDirect, hedit, hgate, hbefore, hparse, hlock,
      runCommand, hexec, emitError, hlisten]

/-- Witness for `command_error_routed`: a command whose body throws, with
and without an `error` listener. -/
theorem command_error_routed_witness :
    dispatch { hasErrorListener := true } 1
        (.direct { id := "m", authorId := "u" } "hi"
          { id := "boom", exec := fun _ _ => .thrown "kaput" } false) {}
      = ((({} : HState).emit (.commandStarted "m" "boom" (.args ""))).emit
          (.error "kaput" "m" (some "boom")), .ret none) :=
  (command_error_routed { hasErrorListener := true } {} {}
      { id := "m", authorId := "u" }
      { id := "boom", exec := fun _ _ => .thrown "kaput" }
      "hi" "" "kaput" 0 rfl (by decide) rfl rfl rfl rfl).1 rfl

theorem sortCmp_head_priorityDesc (l : List Inhib) :
    (sortCmp priorityDesc l).head? = specFirstMaxPriority l := by
  induction l with
  | nil => rfl
  | cons x xs ih =>
    rcases hs : sortCmp priorityDesc xs with _ | ⟨y, ys⟩
    · rw [hs] at ih
      simp [sortCmp, hs, insertCmp, specFirstMaxPriority, ← ih]
    · rw [hs] at ih
      simp only [sortCmp, hs, insertCmp, specFirstMaxPriority, ← ih,
        List.head?]
      by_cases hgt : y.priority > x.priority
      · have hcmp : priorityDesc x y = .gt := compare_gt_iff_gt.mpr hgt
        rw [hcmp, show (Ordering.gt == Ordering.gt) = true from rfl]
        simp [hgt]
      · have hcmp : priorityDesc x y ≠ .gt := by
          simp only [priorityDesc, Ne]
          rw [compare_gt_iff_gt]
          exact hgt
        have hb : (priorityDesc x y == Ordering.gt) = false := by
          cases hpc : priorityDesc x y
          · rfl
          · rfl
          · exact absurd hpc hcmp
        rw [hb]
        simp [hgt]

theorem specFirstMaxPriority_eq_none_iff (l : List Inhib) :
    specFirstMaxPriority l = none ↔ l = [] := by
  cases l with
  | nil => simp [specFirstMaxPriority]
  | cons x xs =>
    simp only [specFirstMaxPriority]
    constructor
    · intro h
      exfalso
      rcases hr : specFirstMaxPriority xs with _ | j <;> rw [hr] at h
      · simp at h
      · by_cases hj : j.priority > x.priority <;> simp [hj] at h
    · intro h
      simp at h

/-- C7 — `InhibitorHandler.test` consults every loaded inhibitor of the
requested stage (all `exec`s are fired, then awaited together with
`Promise.all`; none can short-circuit another), returns `null` when none of
them blocks, and otherwise returns the reason of the blocking inhibitor with
the highest numeric priority, ties broken by declaration order (the sort is
stable, so the earliest-loaded maximal-priority inhibitor wins). -/
theorem inhibitor_test_highest_priority (modules : List Inhib) (type : String)
    (m : Msg) (command : Option String) :
    InhibitorHandler.test modules type m command
      = (specFirstMaxPriority ((modules.filter (fun i => i.type == type)).filter
          (fun i => i.exec m command))).map (fun i => i.reason) ∧
    (InhibitorHandler.test modules type m command = none ↔
      ∀ i ∈ modules, i.type = type → i.exec m command = false) := by
  have heq : InhibitorHandler.test modules type m command
      = (specFirstMaxPriority ((modules.filter (fun i => i.type == type)).filter
          (fun i => i.exec m command))).map (fun i => i.reason) := by
    simp only [InhibitorHandler.test]
    split_ifs with h1 h2 h3
    · rw [List.isEmpty_iff] at h1
      subst h1
      simp [specFirstMaxPriority]
    · rw [List.isEmpty_iff] at h2
      rw [h2]
      simp [specFirstMaxPriority]
    · rw [List.isEmpty_iff] at h3
      rw [h3]
      simp [specFirstMaxPriority]
    · have hh := sortCmp_head_priorityDesc ((modules.filter
        (fun i => i.type == type)).filter (fun i => i.exec m command))
      rcases hs : sortCmp priorityDesc ((modules.filter
          (fun i => i.type == type)).filter (fun i => i.exec m command))
        with _ | ⟨top, rest⟩
      · exfalso
        rw [hs] at hh
        have hnil := (specFirstMaxPriority_eq_none_iff _).mp hh.symm
        rw [List.isEmpty_iff] at h3
        exact h3 hnil
      · rw [hs] at hh
        simp only [List.head?] at hh
        rw [hs, ← hh]
        rfl
  refine ⟨heq, ?_⟩
  rw [heq, Option.map_eq_none', specFirstMaxPriority_eq_none_iff,
    List.filter_filter, List.filter_eq_nil_iff]
  constructor
  · intro h i hi htype
    have := h i hi
    simp only [htype, beq_self_eq_true, Bool.true_and] at this
    simpa using this
  · intro h i hi
    by_cases ht : i.type = type
    · simp [ht, h i hi ht]
    · simp [ht]

theorem lockI_step (k : String) (l0 : List String) (inv1 inv2 : LInv)
    (hk1 : inv1.key = k) (hk2 : inv2.key = k) (hl0 : l0.contains k = false)
    (b : Bool) (conf : LConf) (hI : LockI k l0 conf) :
    LockI k l0 (lstep1 inv1 inv2 b conf) := by
  obtain ⟨hlk, hmut, h1, h2⟩ := hI
  have hS : holding LPhase.start = false := rfl
  have hA : holding LPhase.acquire = false := rfl
  have hR : holding LPhase.run = true := rfl
  have hRel : holding LPhase.rel = true := rfl
  have hD : ∀ o, holding (LPhase.done o) = false := fun _ => rfl
  cases b
  · -- the scheduler steps invocation 2
    cases hph : conf.ph2 with
    | start =>
      rw [hph] at hlk hmut h2
      rw [hS, Bool.or_false] at hlk
      simp only [hS] at hmut
      simp at h2
      by_cases hpe : inv2.preExits
      · have hstep : lstep1 inv1 inv2 false conf
            = { conf with ph2 := LPhase.done LOutcome.preExit } := by
          simp [lstep1, lstep, hph, hpe]
        refine ⟨?_, ?_, ?_, ?_⟩ <;>
          simp [hstep, hS, hA, hR, hRel, hD, hlk, h1, h2, hmut]
      · have hstep : lstep1 inv1 inv2 false conf
            = { conf with ph2 := LPhase.acquire } := by
          simp [lstep1, lstep, hph, hpe]
        refine ⟨?_, ?_, ?_, ?_⟩ <;>
          simp [hstep, hS, hA, hR, hRel, hD, hlk, h1, h2, hmut]
    | acquire =>
      rw [hph] at hlk hmut h2
      rw [hA, Bool.or_false] at hlk
      simp only [hA] at hmut
      simp at h2
      by_cases hh1 : holding conf.ph1 = true
      · have hlk' : conf.locker = k :: l0 := by rw [hlk, hh1]; simp
        have hc : conf.locker.contains inv2.key = true := by
          rw [hk2, hlk']; simp
        have hcm : inv2.key ∈ conf.locker := by simpa using hc
        have hstep : lstep1 inv1 inv2 false conf
            = { conf with
                ph2 := LPhase.done LOutcome.lockedExit
                evs := conf.evs ++ [LEv.locked 2] } := by
          simp [lstep1, lstep, hph, hcm]
        refine ⟨?_, ?_, ?_, ?_⟩ <;>
          simp [hstep, hS, hA, hR, hRel, hD, hh1, hlk, h1, h2]
      · have hh1' : holding conf.ph1 = false := by
          revert hh1; cases holding conf.ph1 <;> simp
        have hlk' : conf.locker = l0 := by rw [hlk, hh1']; simp
        have hc : conf.locker.contains inv2.key = false := by
          rw [hk2, hlk']; exact hl0
        have hcm : inv2.key ∉ conf.locker := by simpa using hc
        have hstep : lstep1 inv1 inv2 false conf
            = { conf with
                ph2 := LPhase.run
                locker := inv2.key :: conf.locker } := by
          simp [lstep1, lstep, hph, hcm]
        refine ⟨?_, ?_, ?_, ?_⟩ <;>
          simp [hstep, hS, hA, hR, hRel, hD, hh1', hlk', hk2, h1, h2]
    | run =>
      rw [hph] at hlk hmut h2
      rw [hR, Bool.or_true] at hlk
      have hh1' : holding conf.ph1 = false := by
        rcases hb : holding conf.ph1
        · rfl
        · exact absurd ⟨hb, hR⟩ hmut
      have hstep : lstep1 inv1 inv2 false conf
          = { conf with
              ph2 := LPhase.rel
              evs := conf.evs ++ [LEv.execStarted 2] } := by
        simp [lstep1, lstep, hph]
      refine ⟨?_, ?_, ?_, ?_⟩ <;>
        simp [hstep, hS, hA, hR, hRel, hD, hh1', hlk, h1, h2]
    | rel =>
      rw [hph] at hlk hmut h2
      rw [hRel, Bool.or_true] at hlk
      have hh1' : holding conf.ph1 = false := by
        rcases hb : holding conf.ph1
        · rfl
        · exact absurd ⟨hb, hRel⟩ hmut
      have hstep : lstep1 inv1 inv2 false conf
          = { conf with
              ph2 := LPhase.done LOutcome.completed
              locker := conf.locker.erase inv2.key } := by
        simp [lstep1, lstep, hph]
      refine ⟨?_, ?_, ?_, ?_⟩ <;>
        simp [hstep, hS, hA, hR, hRel, hD, hh1', hlk, hk2,
          List.erase_cons_head, h1, h2]
    | done o =>
      rw [hph] at hlk hmut h2
      rw [hD, Bool.or_false] at hlk
      have hstep : lstep1 inv1 inv2 false conf
          = { conf with ph2 := LPhase.done o } := by
        simp [lstep1, lstep, hph]
      refine ⟨?_, ?_, ?_, ?_⟩ <;>
        simp [hstep, hS, hA, hR, hRel, hD, hlk, h1, h2, hmut]
  · -- the scheduler steps invocation 1
    cases hph : conf.ph1 with
    | start =>
      rw [hph] at hlk hmut h1
      rw [hS, Bool.false_or] at hlk
      simp only [hS] at hmut
      simp at h1
      by_cases hpe : inv1.preExits
      · have hstep : lstep1 inv1 inv2 true conf
            = { conf with ph1 := LPhase.done LOutcome.preExit } := by
          simp [lstep1, lstep, hph, hpe]
        refine ⟨?_, ?_, ?_, ?_⟩ <;>
          simp [hstep, hS, hA, hR, hRel, hD, hlk, h1, h2, hmut]
      · have hstep : lstep1 inv1 inv2 true conf
            = { conf with ph1 := LPhase.acquire } := by
          simp [lstep1, lstep, hph, hpe]
        refine ⟨?_, ?_, ?_, ?_⟩ <;>
          simp [hstep, hS, hA, hR, hRel, hD, hlk, h1, h2, hmut]
    | acquire =>
      rw [hph] at hlk hmut h1
      rw [hA, Bool.false_or] at hlk
      simp only [hA] at hmut
      simp at h1
      by_cases hh2 : holding conf.ph2 = true
      · have hlk' : conf.locker = k :: l0 := by rw [hlk, hh2]; simp
        have hc : conf.locker.contains inv1.key = true := by
          rw [hk1, hlk']; simp
        have hcm : inv1.key ∈ conf.locker := by simpa using hc
        have hstep : lstep1 inv1 inv2 true conf
            = { conf with
                ph1 := LPhase.done LOutcome.lockedExit
                evs := conf.evs ++ [LEv.locked 1] } := by
          simp [lstep1, lstep, hph, hcm]
        refine ⟨?_, ?_, ?_, ?_⟩ <;>
          simp [hstep, hS, hA, hR, hRel, hD, hh2, hlk, h1, h2]
      · have hh2' : holding conf.ph2 = false := by
          revert hh2; cases holding conf.ph2 <;> simp
        have hlk' : conf.locker = l0 := by rw [hlk, hh2']; simp
        have hc : conf.locker.contains inv1.key = false := by
          rw [hk1, hlk']; exact hl0
        have hcm : inv1.key ∉ conf.locker := by simpa using hc
        have hstep : lstep1 inv1 inv2 true conf
            = { conf with
                ph1 := LPhase.run
                locker := inv1.key :: conf.locker } := by
          simp [lstep1, lstep, hph, hcm]
        refine ⟨?_, ?_, ?_, ?_⟩ <;>
          simp [hstep, hS, hA, hR, hRel, hD, hh2', hlk', hk1, h1, h2]
    | run =>
      rw [hph] at hlk hmut h1
      rw [hR, Bool.true_or] at hlk
      have hh2' : holding conf.ph2 = false := by
        rcases hb : holding conf.ph2
        · rfl
        · exact absurd ⟨hR, hb⟩ hmut
      have hstep : lstep1 inv1 inv2 true conf
          = { conf with
              ph1 := LPhase.rel
              evs := conf.evs ++ [LEv.execStarted 1] } := by
        simp [lstep1, lstep, hph]
      refine ⟨?_, ?_, ?_, ?_⟩ <;>
        simp [hstep, hS, hA, hR, hRel, hD, hh2', hlk, h1, h2]
    | rel =>
      rw [hph] at hlk hmut h1
      rw [hRel, Bool.true_or] at hlk
      have hh2' : holding conf.ph2 = false := by
        rcases hb : holding conf.ph2
        · rfl
        · exact absurd ⟨hRel, hb⟩ hmut
      have hstep : lstep1 inv1 inv2 true conf
          = { conf with
              ph1 := LPhase.done LOutcome.completed
              locker := conf.locker.erase inv1.key } := by
        simp [lstep1, lstep, hph]
      refine ⟨?_, ?_, ?_, ?_⟩ <;>
        simp [hstep, hS, hA, hR, hRel, hD, hh2', hlk, hk1,
          List.erase_cons_head, h1, h2]
    | done o =>
      rw [hph] at hlk hmut h1
      rw [hD, Bool.false_or] at hlk
      have hstep : lstep1 inv1 inv2 true conf
          = { conf with ph1 := LPhase.done o } := by
        simp [lstep1, lstep, hph]
      refine ⟨?_, ?_, ?_, ?_⟩ <;>
        simp [hstep, hS, hA, hR, hRel, hD, hlk, h1, h2, hmut]

theorem lockI_run (k : String) (l0 : List String) (inv1 inv2 : LInv)
    (hk1 : inv1.key = k) (hk2 : inv2.key = k) (hl0 : l0.contains k = false) :
    ∀ (s : List Bool) (conf : LConf), LockI k l0 conf →
      LockI k l0 (lrun inv1 inv2 s conf)
  | [], _, h => h
  | b :: s, conf, h =>
    lockI_run k l0 inv1 inv2 hk1 hk2 hl0 s (lstep1 inv1 inv2 b conf)
      (lockI_step k l0 inv1 inv2 hk1 hk2 hl0 b conf h)

/-- C3 — the lock protocol of `handleDirectCommand` (2143-2163): for two
interleaved invocations computing the same key, under every schedule (a) the
two are never simultaneously inside the body+release critical section, so
they never both execute the command body while the key is held; (b) an
invocation that ends in the `commandLocked` branch never started the body;
(c) once both invocations have completed — through any exit path: a pre-lock
exit (inhibitor block, Flag result, or pre-lock throw), the locked exit, or
a completed body (normal or throwing, the `finally` releasing either way) —
the key is no longer in the command's lock set. -/
theorem lock_mutual_exclusion (k : String) (inv1 inv2 : LInv)
    (l0 : List String) (s : List Bool)
    (hk1 : inv1.key = k) (hk2 : inv2.key = k)
    (hl0 : l0.contains k = false) :
    ¬(holding (lrun inv1 inv2 s { locker := l0 }).ph1 = true ∧
      holding (lrun inv1 inv2 s { locker := l0 }).ph2 = true) ∧
    ((lrun inv1 inv2 s { locker := l0 }).ph1 = .done .lockedExit →
      LEv.execStarted 1 ∉ (lrun inv1 inv2 s { locker := l0 }).evs) ∧
    ((lrun inv1 inv2 s { locker := l0 }).ph2 = .done .lockedExit →
      LEv.execStarted 2 ∉ (lrun inv1 inv2 s { locker := l0 }).evs) ∧
    ((∃ o1, (lrun inv1 inv2 s { locker := l0 }).ph1 = .done o1) →
      (∃ o2, (lrun inv1 inv2 s { locker := l0 }).ph2 = .done o2) →
      (lrun inv1 inv2 s { locker := l0 }).locker.contains k = false) := by
  have hinit : LockI k l0 { locker := l0 } := by
    refine ⟨by simp [holding], by simp [holding], by simp, by simp⟩
  obtain ⟨hlk, hmut, h1, h2⟩ :=
    lockI_run k l0 inv1 inv2 hk1 hk2 hl0 s { locker := l0 } hinit
  refine ⟨hmut, ?_, ?_, ?_⟩
  · intro hdone hm
    rcases h1.mp hm with hc | hc <;> rw [hdone] at hc <;> exact absurd hc (by simp)
  · intro hdone hm
    rcases h2.mp hm with hc | hc <;> rw [hdone] at hc <;> exact absurd hc (by simp)
  · rintro ⟨o1, ho1⟩ ⟨o2, ho2⟩
    rw [ho1, ho2] at hlk
    have hd1 : holding (LPhase.done o1) = false := rfl
    have hd2 : holding (LPhase.done o2) = false := rfl
    rw [hd1, hd2] at hlk
    simp only [Bool.or_false, if_neg (by simp : ¬(false = true))] at hlk
    rw [hlk]
    exact hl0

/-- Witness for `lock_mutual_exclusion`: two invocations with key `"u1"`
under the schedule 1-1-2-1-2-2 (invocation 2 attempts the lock while 1 holds
it and exits locked). -/
theorem lock_mutual_exclusion_witness :
    ¬(holding (lrun ⟨"u1", false⟩ ⟨"u1", false⟩
        [true, true, false, true, false, false] { locker := [] }).ph1 = true ∧
      holding (lrun ⟨"u1", false⟩ ⟨"u1", false⟩
        [true, true, false, true, false, false] { locker := [] }).ph2 = true) ∧
    ((lrun ⟨"u1", false⟩ ⟨"u1", false⟩
        [true, true, false, true, false, false] { locker := [] }).ph1
          = .done .lockedExit →
      LEv.execStarted 1 ∉ (lrun ⟨"u1", false⟩ ⟨"u1", false⟩
        [true, true, false, true, false, false] { locker := [] }).evs) ∧
    ((lrun ⟨"u1", false⟩ ⟨"u1", false⟩
        [true, true, false, true, false, false] { locker := [] }).ph2
          = .done .lockedExit →
      LEv.execStarted 2 ∉ (lrun ⟨"u1", false⟩ ⟨"u1", false⟩
        [true, true, false, true, false, false] { locker := [] }).evs) ∧
    ((∃ o1, (lrun ⟨"u1", false⟩ ⟨"u1", false⟩
        [true, true, false, true, false, false] { locker := [] }).ph1
          = .done o1) →
      (∃ o2, (lrun ⟨"u1", false⟩ ⟨"u1", false⟩
        [true, true, false, true, false, false] { locker := [] }).ph2
          = .done o2) →
      (lrun ⟨"u1", false⟩ ⟨"u1", false⟩
        [true, true, false, true, false, false] { locker := [] }).locker.contains
          "u1" = false) :=
  lock_mutual_exclusion "u1" ⟨"u1", false⟩ ⟨"u1", false⟩ []
    [true, true, false, true, false, false] rfl rfl rfl

theorem allOk_emit (st : HState) (ev : Event)
    (h : st.trace.all eventStartedOk = true) (hev : eventStartedOk ev = true) :
    (st.emit ev).trace.all eventStartedOk = true := by
  simp [HState.emit, List.all_append, h, hev]

theorem allOk_runCooldowns_events (env : Env) (cd : Cooldowns) (m : Msg)
    (c : Cmd) : (runCooldowns env cd m c).events.all eventStartedOk = true := by
  by_cases hIgn : (c.ignoreCooldown.getD env.ignoreCooldown).applies m c.id = true
  · simp [runCooldowns, hIgn]
  · rw [Bool.not_eq_true] at hIgn
    by_cases hT : c.cooldown.getD env.defaultCooldown = 0
    · simp [runCooldowns, hIgn, hT]
    · rcases hent : getEntry cd m.authorId c.id with _ | e
      · rw [runCooldowns_fresh env cd m c hIgn hT hent]
        by_cases hb : c.ratelimit ≤ (0 : Int) <;> simp [hb, eventStartedOk]
      · rw [runCooldowns_entry env cd m c e hIgn hT hent]
        by_cases hb : c.ratelimit ≤ e.uses <;> simp [hb, eventStartedOk]

theorem allOk_runPermissionChecks (env : Env) (st : HState) (m : Msg) (c : Cmd)
    (h : st.trace.all eventStartedOk = true) :
    (runPermissionChecks env st m c).1.trace.all eventStartedOk = true := by
  simp only [runPermissionChecks]
  repeat' split
  all_goals simp_all [HState.emit, List.all_append, eventStartedOk]

theorem allOk_runPostTypeInhibitors (env : Env) (st : HState) (m : Msg)
    (c : Cmd) (h : st.trace.all eventStartedOk = true) :
    (runPostTypeInhibitors env st m c).1.trace.all eventStartedOk = true := by
  by_cases h1 : (!env.skipBuiltInPostInhibitors
      && (c.ownerOnly && !env.isOwner m.authorId)) = true
  · simp only [runPostTypeInhibitors, h1, if_true]
    exact allOk_emit st _ h rfl
  · rw [Bool.not_eq_true] at h1
    by_cases h2 : (!env.skipBuiltInPostInhibitors
        && (c.superUserOnly && !env.isSuperUser m.authorId)) = true
    · simp only [runPostTypeInhibitors, h1, h2, Bool.false_eq_true, if_false,
        if_true]
      exact allOk_emit st _ h rfl
    · rw [Bool.not_eq_true] at h2
      by_cases h3 : (!env.skipBuiltInPostInhibitors
          && (c.channel == some "guild" && m.guildId.isNone)) = true
      · simp only [runPostTypeInhibitors, h1, h2, h3, Bool.false_eq_true,
          if_false, if_true]
        exact allOk_emit st _ h rfl
      · rw [Bool.not_eq_true] at h3
        by_cases h4 : (!env.skipBuiltInPostInhibitors
            && (c.channel == some "dm" && m.guildId.isSome)) = true
        · simp only [runPostTypeInhibitors, h1, h2, h3, h4, Bool.false_eq_true,
            if_false, if_true]
          exact allOk_emit st _ h rfl
        · rw [Bool.not_eq_true] at h4
          by_cases h5 : (!env.skipBuiltInPostInhibitors
              && (c.onlyNsfw && !m.channelNsfw)) = true
          · simp only [runPostTypeInhibitors, h1, h2, h3, h4, h5,
              Bool.false_eq_true, if_false, if_true]
            exact allOk_emit st _ h rfl
          · rw [Bool.not_eq_true] at h5
            simp only [runPostTypeInhibitors, h1, h2, h3, h4, h5,
              Bool.false_eq_true, if_false]
            -- past the built-ins: permissions, custom inhibitors, cooldowns
            set p1 := if (!env.skipBuiltInPostInhibitors) = true then
                runPermissionChecks env st m c else (st, false) with hp1def
            have hp1 : p1.1.trace.all eventStartedOk = true := by
              rw [hp1def]
              split
              · exact allOk_runPermissionChecks env st m c h
              · exact h
            by_cases hb1 : p1.2 = true
            · simp only [hb1, if_true]
              exact hp1
            · rw [Bool.not_eq_true] at hb1
              simp only [hb1, Bool.false_eq_true, if_false]
              set reason := match env.inhibitors with
                | some mods => InhibitorHandler.test mods "post" m (some c.id)
                | none => none with hreasondef
              set p2 := if (env.skipBuiltInPostInhibitors && reason.isNone)
                  = true then runPermissionChecks env p1.1 m c
                else (p1.1, false) with hp2def
              have hp2 : p2.1.trace.all eventStartedOk = true := by
                rw [hp2def]
                split
                · exact allOk_runPermissionChecks env p1.1 m c hp1
                · exact hp1
              by_cases hb2 : p2.2 = true
              · simp only [hb2, if_true]
                exact hp2
              · rw [Bool.not_eq_true] at hb2
                simp only [hb2, Bool.false_eq_true, if_false]
                rcases reason with _ | r
                · simp only [List.all_append, Bool.and_eq_true]
                  exact ⟨hp2, allOk_runCooldowns_events env p2.1.cooldowns m c⟩
                · exact allOk_emit p2.1 _ hp2 rfl

theorem lockerAdd_trace (st : HState) (a k : String) :
    (lockerAdd st a k).trace = st.trace := rfl

theorem lockerDel_trace (st : HState) (a k : String) :
    (lockerDel st a k).trace = st.trace := rfl

theorem allOk_emitError (env : Env) (st : HState) (e : String) (m : Msg)
    (cid : Option String) (h : st.trace.all eventStartedOk = true) :
    (emitError env st e m cid).1.trace.all eventStartedOk = true := by
  unfold emitError
  split
  · exact allOk_emit st _ h rfl
  · exact h

theorem allOk_runCommand (st : HState) (m : Msg) (c : Cmd) (v : String)
    (h : st.trace.all eventStartedOk = true) :
    (runCommand st m c (.args v)).1.trace.all eventStartedOk = true := by
  simp only [runCommand]
  split
  · exact allOk_emit _ _ (allOk_emit st _ h rfl) rfl
  · exact allOk_emit st _ h rfl

theorem allOk_runAllTypeInhibitors (env : Env) (st : HState) (m : Msg)
    (h : st.trace.all eventStartedOk = true) :
    (runAllTypeInhibitors env st m).1.trace.all eventStartedOk = true := by
  simp only [runAllTypeInhibitors]
  repeat' split
  all_goals first
    | exact h
    | exact allOk_emit st _ h rfl

theorem allOk_runPreTypeInhibitors (env : Env) (st : HState) (m : Msg)
    (h : st.trace.all eventStartedOk = true) :
    (runPreTypeInhibitors env st m).1.trace.all eventStartedOk = true := by
  simp only [runPreTypeInhibitors]
  split
  · exact allOk_emit st _ h rfl
  · exact h

theorem allOk_conditionalStep (env : Env) (m : Msg)
    (acc : HState × Option String) (c : Cmd)
    (h : acc.1.trace.all eventStartedOk = true) :
    (conditionalStep env m acc c).1.trace.all eventStartedOk = true := by
  simp only [conditionalStep]
  have hg := allOk_runPostTypeInhibitors env acc.1 m c h
  split
  · exact hg
  · split
    · rename_i e heq
      have he := allOk_emitError env (runPostTypeInhibitors env acc.1 m c).1 e m
        (some c.id) hg
      split <;> rename_i hpair <;> rw [hpair] at he <;> exact he
    · have hr := allOk_runCommand (runPostTypeInhibitors env acc.1 m c).1 m c "" hg
      split
      · exact hr
      · rename_i e heq
        have he := allOk_emitError env
          (runCommand (runPostTypeInhibitors env acc.1 m c).1 m c (.args "")).1 e m
          (some c.id) hr
        split <;> rename_i hpair <;> rw [hpair] at he <;> exact he

theorem allOk_conditionalFold (env : Env) (m : Msg) (cs : List Cmd)
    (acc : HState × Option String)
    (h : acc.1.trace.all eventStartedOk = true) :
    (cs.foldl (conditionalStep env m) acc).1.trace.all eventStartedOk = true := by
  induction cs generalizing acc with
  | nil => exact h
  | cons c rest ih =>
    exact ih (conditionalStep env m acc c) (allOk_conditionalStep env m acc c h)

theorem allOk_handleConditionalCommands (env : Env) (st : HState) (m : Msg)
    (h : st.trace.all eventStartedOk = true) :
    (handleConditionalCommands env st m).1.trace.all eventStartedOk = true := by
  simp only [handleConditionalCommands]
  split
  · exact h
  · exact allOk_conditionalFold env m _ (st, none) h

theorem allOk_finishDirect (env : Env) (m : Msg) (c : Cmd)
    (body : HState × Option String × BodyOut)
    (h : body.1.trace.all eventStartedOk = true) :
    (finishDirect env m c body).1.trace.all eventStartedOk = true := by
  obtain ⟨st0, key, out⟩ := body
  have h : st0.trace.all eventStartedOk = true := h
  rcases out with b | e | r
  · rcases key with _ | k
    · exact h
    · exact h
  · have he := allOk_emitError env st0 e m (some c.id) h
    rcases key with _ | k
    · simp only [finishDirect]
      split <;> rename_i hpair <;> rw [hpair] at he <;> exact he
    · simp only [finishDirect]
      split <;> rename_i hpair <;> rw [hpair] at he <;> exact he
  · rcases key with _ | k
    · exact h
    · exact h

theorem allOk_finishHandle (env : Env) (m : Msg) (r : HState × HRes)
    (h : r.1.trace.all eventStartedOk = true) :
    (finishHandle env m r).1.trace.all eventStartedOk = true := by
  obtain ⟨st0, res⟩ := r
  have h : st0.trace.all eventStartedOk = true := h
  rcases res with b | e
  · rcases b with _ | b
    · exact h
    · cases b
      · exact allOk_emit st0 _ h rfl
      · exact h
  · have he := allOk_emitError env st0 e m none h
    simp only [finishHandle]
    split <;> rename_i hpair <;> rw [hpair] at he <;> exact he

theorem allOk_finishConditional (env : Env) (m : Msg)
    (rc : HState × Option String × Bool)
    (h : rc.1.trace.all eventStartedOk = true) :
    (finishConditional env m rc).1.trace.all eventStartedOk = true := by
  obtain ⟨st0, err, ran⟩ := rc
  have h : st0.trace.all eventStartedOk = true := h
  rcases err with _ | e
  · cases ran
    · exact allOk_emit st0 _ h rfl
    · exact h
  · have he := allOk_emitError env st0 e m none h
    simp only [finishConditional]
    split <;> rename_i hpair <;> rw [hpair] at he <;> exact he

theorem allOk_dispatch (env : Env) (fuel : Nat) (call : Call) (st : HState)
    (h : st.trace.all eventStartedOk = true) :
    (dispatch env fuel call st).1.trace.all eventStartedOk = true := by
  induction fuel generalizing call st with
  | zero => exact h
  | succ fuel ih =>
    cases call with
    | handleMsg m =>
      simp only [dispatch]
      have ha := allOk_runAllTypeInhibitors env st m h
      by_cases ha2 : (runAllTypeInhibitors env st m).2 = true
      · simp only [ha2, if_true]
        exact ha
      · rw [Bool.not_eq_true] at ha2
        simp only [ha2, Bool.false_eq_true, if_false]
        have hp := allOk_runPreTypeInhibitors env (runAllTypeInhibitors env st m).1
          m ha
        by_cases hp2 :
            (runPreTypeInhibitors env (runAllTypeInhibitors env st m).1 m).2 = true
        · simp only [hp2, if_true]
          exact hp
        · rw [Bool.not_eq_true] at hp2
          simp only [hp2, Bool.false_eq_true, if_false]
          split
          · rename_i c heq
            by_cases hs : c.slashOnly = true
            · simp only [hs, if_true]
              exact allOk_emit _ _ hp rfl
            · rw [Bool.not_eq_true] at hs
              simp only [hs, Bool.false_eq_true, if_false]
              exact allOk_finishHandle env m _ (ih _ _ hp)
          · exact allOk_finishConditional env m _
              (allOk_handleConditionalCommands env _ m hp)
    | direct m content c ignore =>
      simp only [dispatch]
      apply allOk_finishDirect
      by_cases hedit : (!ignore && m.editedTimestamp.isSome && !c.editable) = true
      · simp only [hedit, if_true]
        exact h
      · rw [Bool.not_eq_true] at hedit
        simp only [hedit, Bool.false_eq_true, if_false]
        set gate := if ignore = true then (st, false)
          else runPostTypeInhibitors env st m c with hgdef
        have hg : gate.1.trace.all eventStartedOk = true := by
          rw [hgdef]
          split
          · exact h
          · exact allOk_runPostTypeInhibitors env st m c h
        by_cases hg2 : gate.2 = true
        · simp only [hg2, if_true]
          exact hg
        · rw [Bool.not_eq_true] at hg2
          simp only [hg2, Bool.false_eq_true, if_false]
          split
          · exact hg
          · split
            · -- cancel
              exact allOk_emit gate.1 _ hg rfl
            · -- retry
              exact ih _ _ (allOk_emit gate.1 _ hg rfl)
            · -- continue
              split
              · exact ih _ _ hg
              · exact hg
            · -- plain args
              split
              · -- no lock supplier
                split
                · exact allOk_runCommand gate.1 m c _ hg
                · exact allOk_runCommand gate.1 m c _ hg
              · -- lock supplier present
                split
                · split
                  · exact allOk_runCommand gate.1 m c _ hg
                  · exact allOk_runCommand gate.1 m c _ hg
                · split
                  · exact allOk_emit gate.1 _ hg rfl
                  · split
                    · exact allOk_runCommand (lockerAdd gate.1 c.id _) m c _
                        (by rw [lockerAdd_trace]; exact hg)
                    · exact allOk_runCommand (lockerAdd gate.1 c.id _) m c _
                        (by rw [lockerAdd_trace]; exact hg)

/-- C6 — a Flag returned by argument resolution short-circuits
`handleDirectCommand` and is observed by the dispatcher, never passed to
`runCommand`: (1) globally, every `commandStarted` event — emitted exactly
where `command.exec` is invoked — carries a plain `.args` payload, never a
control Flag, on any dispatch from a state whose trace satisfies the same;
(2) a `cancel` Flag emits `commandCancelled` and halts resolving `true`;
(3) a `retry` Flag emits `commandBreakout` and re-enters the handling
pipeline (`handle`) on the substituted message; (4) a `continue` Flag
dispatches the named command directly instead. -/
theorem flag_never_reaches_exec (env : Env) (st st1 : HState) (m m2 : Msg)
    (c bc : Cmd) (content rest : String) (ign : Bool) (fuel : Nat)
    (hedit : m.editedTimestamp = none)
    (hgate : runPostTypeInhibitors env st m c = (st1, false))
    (hbefore : c.before m = .ok) :
    (∀ call st0, st0.trace.all eventStartedOk = true →
      (dispatch env fuel call st0).1.trace.all eventStartedOk = true) ∧
    (c.parse m content = .cancel →
      dispatch env (fuel + 1) (.direct m content c false) st
        = (st1.emit (.commandCancelled m.id c.id), .ret (some true))) ∧
    (c.parse m content = .retry m2 →
      dispatch env (fuel + 1) (.direct m content c false) st
        = dispatch env fuel (.handleMsg m2)
            (st1.emit (.commandBreakout m.id c.id m2.id))) ∧
    (c.parse m content = .cont bc.id rest ign → env.findModule bc.id = some bc →
      dispatch env (fuel + 1) (.direct m content c false) st
        = dispatch env fuel (.direct m rest bc ign) st1) := by
  refine ⟨fun call st0 h0 => allOk_dispatch env fuel call st0 h0, ?_, ?_, ?_⟩
  · intro hparse
    simp [dispatch, finishDirect, hedit, hgate, hbefore, hparse]
  · intro hparse
    simp [dispatch, finishDirect, hedit, hgate, hbefore, hparse]
  · intro hparse hfind
    simp [dispatch, finishDirect, hedit, hgate, hbefore, hparse, hfind]

/-- Witness for `flag_never_reaches_exec`: a command whose parse yields a
`cancel` Flag emits `commandCancelled` and resolves `true` without its body
ever starting. -/
theorem flag_never_reaches_exec_witness :
    dispatch {} 1
        (.direct { id := "m", authorId := "u" } "x"
          { id := "a", parse := fun _ _ => .cancel } false) {}
      = (({} : HState).emit (.commandCancelled "m" "a"), .ret (some true)) :=
  (flag_never_reaches_exec {} {} {} { id := "m", authorId := "u" }
      { id := "m2" } { id := "a", parse := fun _ _ => .cancel } { id := "b" }
      "x" "r" false 0 rfl (by decide) rfl).2.1 rfl

theorem prefixCompare_not_gt_iff (ments : List String) (a b : String) :
    prefixCompare ments a b ≠ .gt ↔
      (ments.contains a = true ∧ ments.contains b = false) ∨
      (ments.contains a = ments.contains b ∧
        (b.data.length < a.data.length ∨
          (a.data.length = b.data.length ∧ ¬ b < a))) := by
  unfold prefixCompare strLex
  split_ifs with h1 h2 h3 h4 h5 h6
  · rw [Bool.and_eq_true, Bool.not_eq_true'] at h1
    exact iff_of_true (by simp) (.inl h1)
  · rw [Bool.and_eq_true, Bool.not_eq_true'] at h2
    refine iff_of_false (by simp) ?_
    rintro (⟨ha, hb⟩ | ⟨hm, _⟩)
    · rw [hb] at h2; exact Bool.false_ne_true h2.1
    · rw [h2.2, h2.1] at hm; exact Bool.false_ne_true hm
  · have hm : ments.contains a = ments.contains b := by
      cases hA : ments.contains a <;> cases hB : ments.contains b <;>
        simp_all
    exact iff_of_true (by simp) (.inr ⟨hm, .inr ⟨h3, asymm h4⟩⟩)
  · refine iff_of_false (by simp) ?_
    rintro (⟨ha, hb⟩ | ⟨_, hl | ⟨_, hba⟩⟩)
    · rw [Bool.and_eq_true, Bool.not_eq_true'] at h1; exact h1 ⟨ha, hb⟩
    · omega
    · exact hba h5
  · have hm : ments.contains a = ments.contains b := by
      cases hA : ments.contains a <;> cases hB : ments.contains b <;>
        simp_all
    exact iff_of_true (by simp) (.inr ⟨hm, .inr ⟨h3, h5⟩⟩)
  · have hm : ments.contains a = ments.contains b := by
      cases hA : ments.contains a <;> cases hB : ments.contains b <;>
        simp_all
    exact iff_of_true (by simp) (.inr ⟨hm, .inl h6⟩)
  · refine iff_of_false (by simp) ?_
    rintro (⟨ha, hb⟩ | ⟨_, hl | ⟨hle, _⟩⟩)
    · rw [Bool.and_eq_true, Bool.not_eq_true'] at h1; exact h1 ⟨ha, hb⟩
    · exact h6 hl
    · exact h3 hle

theorem prefixCompare_gt_asymm (ments : List String) (a b : String)
    (h : prefixCompare ments a b = .gt) : prefixCompare ments b a ≠ .gt := by
  unfold prefixCompare strLex at *
  split_ifs at h ⊢
  all_goals simp_all
  all_goals omega

theorem prefixCompare_le_trans (ments : List String) (a b c : String)
    (hab : prefixCompare ments a b ≠ .gt) (hbc : prefixCompare ments b c ≠ .gt) :
    prefixCompare ments a c ≠ .gt := by
  rw [prefixCompare_not_gt_iff] at hab hbc ⊢
  rcases hab with ⟨ha, hb⟩ | ⟨hmab, hlab⟩
  · rcases hbc with ⟨hb', hc⟩ | ⟨hmbc, hlbc⟩
    · rw [hb] at hb'; cases hb'
    · exact .inl ⟨ha, hmbc ▸ hb⟩
  · rcases hbc with ⟨hb', hc⟩ | ⟨hmbc, hlbc⟩
    · exact .inl ⟨hmab ▸ hb', hc⟩
    · refine .inr ⟨hmab.trans hmbc, ?_⟩
      rcases hlab with h1 | ⟨h1, h1l⟩
      · rcases hlbc with h2 | ⟨h2, h2l⟩
        · exact .inl (by omega)
        · exact .inl (by omega)
      · rcases hlbc with h2 | ⟨h2, h2l⟩
        · exact .inl (by omega)
        · refine .inr ⟨by omega, ?_⟩
          rw [not_lt] at h1l h2l ⊢
          exact le_trans h1l h2l

theorem insertCmp_perm {α : Type} (cmp : α → α → Ordering) (x : α)
    (l : List α) : List.Perm (insertCmp cmp x l) (x :: l) := by
  induction l with
  | nil => exact List.Perm.refl _
  | cons y ys ih =>
    simp only [insertCmp]
    split
    · exact (ih.cons y).trans (List.Perm.swap x y ys)
    · exact List.Perm.refl _

theorem sortCmp_perm {α : Type} (cmp : α → α → Ordering) (l : List α) :
    List.Perm (sortCmp cmp l) l := by
  induction l with
  | nil => exact List.Perm.refl _
  | cons x xs ih =>
    exact (insertCmp_perm cmp x (sortCmp cmp xs)).trans (ih.cons x)

theorem insertCmp_pairwise {α : Type} (cmp : α → α → Ordering)
    (hasym : ∀ a b, cmp a b = .gt → cmp b a ≠ .gt)
    (htrans : ∀ a b c, cmp a b ≠ .gt → cmp b c ≠ .gt → cmp a c ≠ .gt)
    (x : α) (l : List α)
    (hl : l.Pairwise (fun a b => cmp a b ≠ .gt)) :
    (insertCmp cmp x l).Pairwise (fun a b => cmp a b ≠ .gt) := by
  induction l with
  | nil => simp [insertCmp]
  | cons y ys ih =>
    rw [List.pairwise_cons] at hl
    obtain ⟨hy, hys⟩ := hl
    simp only [insertCmp]
    split
    · rename_i hgt
      have hgt' : cmp x y = .gt := by
        cases hc : cmp x y <;> rw [hc] at hgt <;>
          first | exact hc | exact absurd hgt (by decide)
      refine List.Pairwise.cons ?_ (ih hys)
      intro z hz
      rcases List.mem_cons.mp ((insertCmp_perm cmp x ys).mem_iff.mp hz) with
        rfl | hz
      · exact hasym _ _ hgt'
      · exact hy z hz
    · rename_i hngt
      have hngt' : cmp x y ≠ .gt := fun he => hngt (by rw [he]; rfl)
      refine List.Pairwise.cons ?_ (List.Pairwise.cons hy hys)
      intro z hz
      rcases List.mem_cons.mp hz with rfl | hz
      · exact hngt'
      · exact htrans x y z hngt' (hy z hz)

theorem sortCmp_pairwise {α : Type} (cmp : α → α → Ordering)
    (hasym : ∀ a b, cmp a b = .gt → cmp b a ≠ .gt)
    (htrans : ∀ a b c, cmp a b ≠ .gt → cmp b c ≠ .gt → cmp a c ≠ .gt)
    (l : List α) :
    (sortCmp cmp l).Pairwise (fun a b => cmp a b ≠ .gt) := by
  induction l with
  | nil => exact List.Pairwise.nil
  | cons x xs ih => exact insertCmp_pairwise cmp hasym htrans x _ ih

theorem parseMultiplePrefixes_first_command (env : Env) (m : Msg)
    (l1 l2 : List (String × Option (List String)))
    (p : String × Option (List String))
    (h1 : ∀ q ∈ l1, (parseWithPrefix env m q.1 q.2).command.isNone = true)
    (hp : (parseWithPrefix env m p.1 p.2).command.isSome = true) :
    parseMultiplePrefixes env m (l1 ++ p :: l2)
      = parseWithPrefix env m p.1 p.2 := by
  simp only [parseMultiplePrefixes, List.map_append, List.map_cons]
  rw [List.find?_append]
  have hnone : ((l1.map fun q => parseWithPrefix env m q.1 q.2).find?
      (fun parsed => parsed.command.isSome)) = none := by
    rw [List.find?_eq_none]
    intro x hx
    rcases List.mem_map.mp hx with ⟨q, hq, rfl⟩
    simp [Option.isNone_iff_eq_none.mp (h1 q hq)]
  rw [hnone]
  simp [List.find?_cons_of_pos, hp]

theorem prefixCompare_longer_first (ments : List String) (a b : String)
    (ha : ments.contains a = false) (hb : ments.contains b = false)
    (hl : a.data.length < b.data.length) :
    prefixCompare ments b a = .lt ∧ prefixCompare ments a b = .gt := by
  unfold prefixCompare
  rw [ha, hb]
  constructor
  · simp only [Bool.false_and, Bool.and_false, Bool.false_eq_true, if_false]
    split_ifs <;> first | rfl | omega
  · simp only [Bool.false_and, Bool.and_false, Bool.false_eq_true, if_false]
    split_ifs <;> first | rfl | omega

/-- C4 — longest prefix wins: (1) the candidate sort is a permutation that
orders any two candidates by `prefixCompare` (mention-forms first, then
longer strings first, equal lengths lexicographically); (2) among
non-mention candidates the strictly longer prefix sorts strictly first;
(3) with equal mention status and equal lengths the comparison is exactly
the lexicographic tie-break; (4) `parseMultiplePrefixes` returns the first
parse that resolved a command, so earlier (longer) candidates shadow later
ones; (5)-(6) the spec's example: with prefixes `["!", "!!"]` the
candidates sort as `["<@!42>", "<@42>", "!!", "!"]`, and `"!!ping"`
resolves `ping` with prefix `"!!"` and alias `"ping"`, while a parse with
the shorter `"!"` finds no command (its alias would be `"!ping"`). -/
theorem longest_prefix_wins :
    (∀ (ments l : List String),
      List.Perm (sortCmp (prefixCompare ments) l) l ∧
      (sortCmp (prefixCompare ments) l).Pairwise
        (fun a b => prefixCompare ments a b ≠ .gt)) ∧
    (∀ (ments : List String) (a b : String),
      ments.contains a = false → ments.contains b = false →
      a.data.length < b.data.length →
      prefixCompare ments b a = .lt ∧ prefixCompare ments a b = .gt) ∧
    (∀ (ments : List String) (a b : String),
      ments.contains a = ments.contains b →
      a.data.length = b.data.length →
      prefixCompare ments a b = strLex a b) ∧
    (∀ (env : Env) (m : Msg) (l1 l2 : List (String × Option (List String)))
      (p : String × Option (List String)),
      (∀ q ∈ l1, (parseWithPrefix env m q.1 q.2).command.isNone = true) →
      (parseWithPrefix env m p.1 p.2).command.isSome = true →
      parseMultiplePrefixes env m (l1 ++ p :: l2)
        = parseWithPrefix env m p.1 p.2) ∧
    (sortCmp (prefixCompare (mentionsOf "42")) (mentionsOf "42" ++ ["!", "!!"])
      = ["<@!42>", "<@42>", "!!", "!"]) ∧
    ((parseCommand pingEnv pingMsg).pfx = some "!!" ∧
     (parseCommand pingEnv pingMsg).alias' = some "ping" ∧
     (parseCommand pingEnv pingMsg).command.map (fun c => c.id)
        = some "ping") ∧
    ((parseWithPrefix pingEnv pingMsg "!").command.isNone = true ∧
     (parseWithPrefix pingEnv pingMsg "!").alias' = some "!ping") := by
  refine ⟨?_, ?_, ?_, ?_, ?_, ?_, ?_⟩
  · intro ments l
    exact ⟨sortCmp_perm _ l,
      sortCmp_pairwise _ (prefixCompare_gt_asymm ments)
        (prefixCompare_le_trans ments) l⟩
  · intro ments a b ha hb hl
    exact prefixCompare_longer_first ments a b ha hb hl
  · intro ments a b hm hl
    unfold prefixCompare
    have h1 : (ments.contains a && !ments.contains b) = false := by
      rw [hm]; cases ments.contains b <;> rfl
    have h2 : (ments.contains b && !ments.contains a) = false := by
      rw [hm]; cases ments.contains b <;> rfl
    rw [h1, h2, if_neg (by simp), if_neg (by simp), if_pos hl]
  · intro env m l1 l2 p h1 hp
    exact parseMultiplePrefixes_first_command env m l1 l2 p h1 hp
  · decide
  · refine ⟨?_, ?_, ?_⟩ <;> decide
  · constructor <;> decide

/-- Witness for `longest_prefix_wins`: the `["!", "!!"]` instance — `"!!"`
sorts strictly before `"!"`, and with the longer prefix's parse first it is
the one `parseMultiplePrefixes` returns. -/
theorem longest_prefix_wins_witness :
    (prefixCompare (mentionsOf "42") "!!" "!" = .lt ∧
     prefixCompare (mentionsOf "42") "!" "!!" = .gt) ∧
    parseMultiplePrefixes pingEnv pingMsg [("!!", none), ("!", none)]
      = parseWithPrefix pingEnv pingMsg "!!" :=
  ⟨longest_prefix_wins.2.1 (mentionsOf "42") "!" "!!" (by decide) (by decide)
      (by decide),
   longest_prefix_wins.2.2.2.1 pingEnv pingMsg [] [("!", none)] ("!!", none)
      (by intro q hq; cases hq) (by decide)⟩
